import Mathlib

/-!
# Formal model of the revela analysis-session subsystem

This file gives a shallow embedding, in Lean 4, of the core of the
`revela` repository (`src/revela-app/src/session_manager.py` and
`src/revela-app/src/llm_code_executor.py`) and proves the testable
properties stated by the repository specification against it.

Modelling conventions:
* Python strings are modelled as `List Char` (`Cell`).  The Python
  character predicates (`str.isdigit`, `str.isalnum`, `str.lower`,
  `str.strip`) are modelled on the ASCII range, which is the range the
  specification's notions of "lowercase" and "identifier-safe" refer to.
* HTML markup is modelled as the stream of tokenizer events
  (`handle_starttag` / `handle_endtag` / `handle_data` calls) that
  `html.parser.HTMLParser` delivers to `HTMLTableParser`.
* Wall-clock time is an explicit natural-number parameter (minutes).
* Arbitrary Python execution (`exec`) and the matplotlib drawing backend
  are modelled as explicit oracle parameters returning `Except`; a
  Python exception is an `Except.error`.
* Polars `Float64` values are modelled as exact rationals `ℚ`.
-/

/-! ## ASCII character model of the Python `str` operations -/

/-- A Python string: a list of characters. -/
abbrev Cell := List Char

/-- Python `c.isdigit()` on the ASCII range: `'0'..'9'`. -/
def pyIsDigit (c : Char) : Bool := decide (48 ≤ c.toNat ∧ c.toNat ≤ 57)

/-- Python `c.isalpha()` on the ASCII range: `'A'..'Z'` or `'a'..'z'`. -/
def pyIsAlpha (c : Char) : Bool :=
  decide ((65 ≤ c.toNat ∧ c.toNat ≤ 90) ∨ (97 ≤ c.toNat ∧ c.toNat ≤ 122))

/-- Python `c.isalnum()` on the ASCII range. -/
def pyIsAlnum (c : Char) : Bool := pyIsAlpha c || pyIsDigit c

/-- Python `c.isupper()` on the ASCII range: `'A'..'Z'`. -/
def pyIsUpper (c : Char) : Bool := decide (65 ≤ c.toNat ∧ c.toNat ≤ 90)

/-- The characters Python `str.strip()` removes: ASCII whitespace. -/
def pyIsSpace (c : Char) : Bool :=
  decide (c.toNat = 32 ∨ c.toNat = 9 ∨ c.toNat = 10 ∨ c.toNat = 13 ∨
    c.toNat = 11 ∨ c.toNat = 12)

/-- Python `str.lower()` on one character, ASCII range: map `'A'..'Z'`
to `'a'..'z'`, leave everything else unchanged. -/
def pyToLower (c : Char) : Char :=
  if 65 ≤ c.toNat ∧ c.toNat ≤ 90 then Char.ofNat (c.toNat + 32) else c

/-- Python `s.strip()`: drop ASCII whitespace from both ends. -/
def pyStrip (s : Cell) : Cell :=
  ((s.dropWhile pyIsSpace).reverse.dropWhile pyIsSpace).reverse

/-- Decimal digits of `n`, with explicit fuel so that the definition is
structurally recursive and evaluates inside the kernel.  `natRepr` below
always supplies enough fuel. -/
def natReprAux : Nat → Nat → List Char
  | 0, _ => []
  | fuel + 1, n =>
    if n < 10 then [Char.ofNat (48 + n)]
    else natReprAux fuel (n / 10) ++ [Char.ofNat (48 + n % 10)]

/-- Python `str(n)` for a natural number: decimal digits. -/
def natRepr (n : Nat) : List Char := natReprAux (n + 1) n

/-- Python `str(n)` for an integer. -/
def intRepr (n : Int) : List Char :=
  if n < 0 then '-' :: natRepr n.natAbs else natRepr n.natAbs

/-! ### Character-level lemmas -/

theorem toNat_ofNat_valid {n : Nat} (h : n < 55296) :
    (Char.ofNat n).toNat = n := by
  have hv : n.isValidChar := Or.inl (by omega)
  simp only [Char.ofNat, dif_pos hv, Char.ofNatAux, Char.toNat]
  rfl

theorem pyToLower_toNat_of_upper {c : Char} (h : 65 ≤ c.toNat ∧ c.toNat ≤ 90) :
    (pyToLower c).toNat = c.toNat + 32 := by
  simp only [pyToLower, if_pos h]
  exact toNat_ofNat_valid (by omega)

theorem pyToLower_eq_self_of_not_upper {c : Char} (h : ¬(65 ≤ c.toNat ∧ c.toNat ≤ 90)) :
    pyToLower c = c := by
  simp only [pyToLower, if_neg h]

/-- Lowercasing preserves being alphanumeric. -/
theorem pyIsAlnum_pyToLower (c : Char) : pyIsAlnum (pyToLower c) = pyIsAlnum c := by
  by_cases h : 65 ≤ c.toNat ∧ c.toNat ≤ 90
  · have ht := pyToLower_toNat_of_upper h
    simp only [pyIsAlnum, pyIsAlpha, pyIsDigit, ht, ← Bool.decide_and, ← Bool.decide_or,
      decide_eq_decide]
    omega
  · rw [pyToLower_eq_self_of_not_upper h]

/-- Lowercasing preserves being a digit. -/
theorem pyIsDigit_pyToLower (c : Char) : pyIsDigit (pyToLower c) = pyIsDigit c := by
  by_cases h : 65 ≤ c.toNat ∧ c.toNat ≤ 90
  · have ht := pyToLower_toNat_of_upper h
    simp only [pyIsDigit, ht, decide_eq_decide]
    omega
  · rw [pyToLower_eq_self_of_not_upper h]

/-- The result of lowercasing has no ASCII uppercase letter. -/
theorem not_pyIsUpper_pyToLower (c : Char) : pyIsUpper (pyToLower c) = false := by
  by_cases h : 65 ≤ c.toNat ∧ c.toNat ≤ 90
  · have ht := pyToLower_toNat_of_upper h
    simp only [pyIsUpper, ht, decide_eq_false_iff_not]
    omega
  · rw [pyToLower_eq_self_of_not_upper h]
    simp only [pyIsUpper, decide_eq_false_iff_not]
    omega

/-- Lowercasing fixes digits. -/
theorem pyToLower_of_digit {c : Char} (h : pyIsDigit c = true) : pyToLower c = c := by
  apply pyToLower_eq_self_of_not_upper
  simp only [pyIsDigit, decide_eq_true_eq] at h
  omega

theorem pyToLower_underscore : pyToLower '_' = '_' := by decide

/-- Lowercasing commutes with the space/dash → underscore replacement. -/
theorem pyToLower_replace_comm (c : Char) :
    (if pyToLower c = ' ' ∨ pyToLower c = '-' then '_' else pyToLower c) =
    pyToLower (if c = ' ' ∨ c = '-' then '_' else c) := by
  by_cases h : 65 ≤ c.toNat ∧ c.toNat ≤ 90
  · have ht := pyToLower_toNat_of_upper h
    have h1 : ¬(pyToLower c = ' ' ∨ pyToLower c = '-') := by
      rintro (h1 | h1) <;> rw [h1] at ht
      · have hs : (' ' : Char).toNat = 32 := rfl
        omega
      · have hs : ('-' : Char).toNat = 45 := rfl
        omega
    have h2 : ¬(c = ' ' ∨ c = '-') := by
      rintro (h2 | h2) <;> subst h2 <;> exact absurd h (by decide)
    rw [if_neg h1, if_neg h2]
  · rw [pyToLower_eq_self_of_not_upper h]
    by_cases h2 : c = ' ' ∨ c = '-'
    · rw [if_pos h2]
      decide
    · rw [if_neg h2, pyToLower_eq_self_of_not_upper h]

/-- Every character of the decimal representation of `n` is a digit. -/
theorem natReprAux_digits (fuel n : Nat) : ∀ c ∈ natReprAux fuel n, pyIsDigit c = true := by
  induction fuel generalizing n with
  | zero => intro c hc; simp [natReprAux] at hc
  | succ fuel ih =>
    intro c hc
    rw [natReprAux] at hc
    split at hc
    · simp only [List.mem_singleton] at hc
      subst hc
      simp only [pyIsDigit, toNat_ofNat_valid (by omega : 48 + n < 55296),
        decide_eq_true_eq]
      omega
    · rcases List.mem_append.1 hc with h | h
      · exact ih (n / 10) c h
      · simp only [List.mem_singleton] at h
        subst h
        have h10 : n % 10 < 10 := Nat.mod_lt _ (by omega)
        simp only [pyIsDigit, toNat_ofNat_valid (by omega : 48 + n % 10 < 55296),
          decide_eq_true_eq]
        omega

theorem natRepr_digits (n : Nat) : ∀ c ∈ natRepr n, pyIsDigit c = true :=
  natReprAux_digits (n + 1) n

/-- `natRepr` produces a nonempty string. -/
theorem natRepr_ne_nil (n : Nat) : natRepr n ≠ [] := by
  rw [natRepr, natReprAux]
  split
  · simp
  · simp

/-- Lowercasing fixes a string of digits. -/
theorem map_pyToLower_of_digits {s : List Char} (h : ∀ c ∈ s, pyIsDigit c = true) :
    s.map pyToLower = s := by
  induction s with
  | nil => rfl
  | cons c t ih =>
    simp only [List.map_cons, List.cons.injEq]
    exact ⟨pyToLower_of_digit (h c (by simp)), ih fun x hx => h x (by simp [hx])⟩

example : natRepr 0 = ['0'] := by decide
example : natRepr 12 = ['1', '2'] := by decide
example : pyStrip " ab ".data = ['a', 'b'] := by decide

/-! ## `HTMLTableParser` (session_manager.py lines 24-70)

The markup is modelled as the stream of events the `html.parser`
tokenizer delivers: one `startTag`/`endTag` per tag and one `textData`
per text run. -/

/-- One tokenizer event. -/
inductive HEv where
  | startTag (tag : Cell)
  | endTag (tag : Cell)
  | textData (s : Cell)
deriving DecidableEq

/-- Parser state: the fields of `HTMLTableParser.__init__`. -/
structure PState where
  tables : List (List (List Cell))
  curTable : List (List Cell)
  curRow : List Cell
  curCell : List Cell
  inTable : Bool
  inRow : Bool
  inCell : Bool
deriving DecidableEq

def PState.init : PState := ⟨[], [], [], [], false, false, false⟩

/-- `handle_starttag` / `handle_endtag` / `handle_data`, combined. -/
def pstep (st : PState) (e : HEv) : PState :=
  match e with
  | .startTag tag =>
    if tag = "table".data then
      { st with inTable := true, curTable := [] }
    else if tag = "tr".data ∧ st.inTable then
      { st with inRow := true, curRow := [] }
    else if (tag = "td".data ∨ tag = "th".data) ∧ st.inRow then
      { st with inCell := true, curCell := [] }
    else st
  | .endTag tag =>
    if tag = "table".data then
      { st with inTable := false,
                tables := if st.curTable ≠ [] then st.tables ++ [st.curTable] else st.tables,
                curTable := [] }
    else if tag = "tr".data ∧ st.inRow then
      { st with inRow := false,
                curTable := if st.curRow ≠ [] then st.curTable ++ [st.curRow] else st.curTable,
                curRow := [] }
    else if (tag = "td".data ∨ tag = "th".data) ∧ st.inCell then
      { st with inCell := false,
                curRow := st.curRow ++ [pyStrip st.curCell.flatten],
                curCell := [] }
    else st
  | .textData s =>
    if st.inCell then { st with curCell := st.curCell ++ [s] } else st

/-- `HTMLTableParser.feed(markup); get_tables()`. -/
def parseTables (evs : List HEv) : List (List (List Cell)) :=
  (evs.foldl pstep PState.init).tables

/-! ## Header normalization (`_load_table_data`, lines 119-136) -/

/-- The fallback name `f'column_{i}'`. -/
def columnName (i : Nat) : Cell := "column_".data ++ natRepr i

/-- `.replace(' ', '_').replace('-', '_')`, per character. -/
def replUnderscore (c : Char) : Char := if c = ' ' ∨ c = '-' then '_' else c

/-- The filter `c.isalnum() or c == '_'`. -/
def keepIdent (c : Char) : Bool := pyIsAlnum c || c = '_'

/-- `not clean_header or clean_header[0].isdigit()`. -/
def emptyOrDigitLeading (s : Cell) : Bool := s.isEmpty || pyIsDigit (s.headD ' ')

/-- One header as cleaned by the loop at lines 120-125:
`str(header).strip()`, then `.replace(' ', '_').replace('-', '_')`,
then keep only alphanumerics and underscores, then replace an empty or
digit-leading result by `column_<i>`, then `.lower()`. -/
def cleanHeader (i : Nat) (h : Cell) : Cell :=
  (if emptyOrDigitLeading (((pyStrip h).map replUnderscore).filter keepIdent)
   then columnName i
   else ((pyStrip h).map replUnderscore).filter keepIdent).map pyToLower

/-- Header normalization exactly as the specification words it
("lowercase; spaces/dashes → underscore; strip any character that is
not alphanumeric or underscore; if empty or digit-leading, replace with
`column_<index>`"), for comparison with `cleanHeader`. -/
def specCleanHeader (i : Nat) (h : Cell) : Cell :=
  if emptyOrDigitLeading (((h.map pyToLower).map replUnderscore).filter keepIdent)
  then columnName i
  else ((h.map pyToLower).map replUnderscore).filter keepIdent

/-- `clean_headers`: the cleaning loop over the enumerated header row. -/
def cleanHeaders (headers : List Cell) : List Cell :=
  headers.enum.map fun p => cleanHeader p.1 p.2

/-- State of the duplicate-disambiguation loop (lines 128-136): the
`seen` counter dictionary and the `unique_headers` accumulator. -/
def uniquifyStep (st : List (Cell × Nat) × List Cell) (h : Cell) :
    List (Cell × Nat) × List Cell :=
  match (st.1.find? fun p => p.1 = h) with
  | some p =>
    (st.1.map fun q => if q.1 = h then (q.1, p.2 + 1) else q,
     st.2 ++ [h ++ '_' :: natRepr (p.2 + 1)])
  | none => (st.1 ++ [(h, 0)], st.2 ++ [h])

/-- `unique_headers`: disambiguate duplicates by appending `_1`, `_2`, … -/
def uniquify (hs : List Cell) : List Cell := (hs.foldl uniquifyStep ([], [])).2

/-- The k-th repetition of a header, as the specification words it:
the first occurrence is kept bare, the k-th duplicate gets suffix `_k`. -/
def suffixed (h : Cell) (k : Nat) : Cell :=
  if k = 0 then h else h ++ '_' :: natRepr k

/-- Disambiguation as the specification words it: each header receives
the suffix given by the number of identical headers occurring before it
(`pre` accumulates the already-seen headers). -/
def specDisambigFrom (pre : List Cell) : List Cell → List Cell
  | [] => []
  | h :: t => suffixed h (pre.count h) :: specDisambigFrom (pre ++ [h]) t

def specDisambig (hs : List Cell) : List Cell := specDisambigFrom [] hs

/-! ## Row padding/truncation and DataFrame construction (lines 138-151) -/

/-- The `while len(padded_row) < len(unique_headers): padded_row.append('')`
loop, with fuel (the loop runs at most `n` times). -/
def padLoopAux : Nat → Nat → List Cell → List Cell
  | 0, _, r => r
  | fuel + 1, n, r => if r.length < n then padLoopAux fuel n (r ++ [[]]) else r

/-- `list(row)[:len(unique_headers)]` followed by the padding loop. -/
def processRow (n : Nat) (row : List Cell) : List Cell :=
  padLoopAux n n (row.take n)

/-- A Polars DataFrame built from a dict of string columns: the
association list `{column name ↦ cell list}` in insertion order. -/
abbrev Frame := List (Cell × List Cell)

/-- `df.height`: the number of rows. -/
def frameHeight (f : Frame) : Nat := ((f.head?).map fun p => p.2.length).getD 0

/-- `df.columns`. -/
def frameCols (f : Frame) : List Cell := f.map Prod.fst

/-- `{header: [] for header in unique_headers}`: a Python dict
comprehension keeps the first insertion position of a duplicated key. -/
def dedupFirst (ks : List Cell) : List Cell :=
  ks.foldl (fun acc k => if k ∈ acc then acc else acc ++ [k]) []

def dictInit (ks : List Cell) : Frame := (dedupFirst ks).map fun k => (k, [])

/-- `data_dict[header].append(value)`. -/
def appendAt (d : Frame) (k : Cell) (v : Cell) : Frame :=
  d.map fun p => if p.1 = k then (p.1, p.2 ++ [v]) else p

/-- The `for header, value in zip(unique_headers, padded_row)` loop. -/
def fillRow (d : Frame) (ks : List Cell) (row : List Cell) : Frame :=
  (ks.zip (processRow ks.length row)).foldl (fun d p => appendAt d p.1 p.2) d

/-- The `for row in rows` loop building `data_dict`. -/
def buildDict (ks : List Cell) (rows : List (List Cell)) : Frame :=
  rows.foldl (fun d r => fillRow d ks r) (dictInit ks)

/-- `pl.DataFrame(data_dict)` succeeds exactly when all columns have
the same length. -/
def validFrame (d : Frame) : Bool :=
  match d with
  | [] => true
  | p :: t => t.all fun q => q.2.length = p.2.length

/-- `pl.DataFrame` raises `ShapeError` on ragged columns; the `except`
clause of `_load_table_data` re-raises it. -/
def mkDataFrame (d : Frame) : Except Unit Frame :=
  if validFrame d then .ok d else .error ()

/-- `_load_table_data` (lines 93-157) after HTML parsing: `.ok none`
models the early `return`s that leave `self.df = None`; `.error ()`
models the re-raised exception. -/
def loadTable (tables : List (List (List Cell))) : Except Unit (Option Frame) :=
  match tables with
  | [] => .ok none
  | t :: _ =>
    if t.length < 2 then .ok none
    else (mkDataFrame (buildDict (uniquify (cleanHeaders (t.headD []))) (t.drop 1))).map some

/-- The column names `loadTable` produces (empty when none produced). -/
def loadedCols (tables : List (List (List Cell))) : List Cell :=
  match loadTable tables with
  | .ok (some d) => frameCols d
  | _ => []

/-- The length of the widest row of a table (the quantity the original
C1 claim compares the column count against). -/
def widestLen (t : List (List Cell)) : Nat := t.foldl (fun m r => max m r.length) 0

/-! ### Lemmas about padding and truncation -/

theorem padLoopAux_eq_append (fuel n : Nat) (r : List Cell) (h : n - r.length ≤ fuel) :
    padLoopAux fuel n r = r ++ List.replicate (n - r.length) [] := by
  induction fuel generalizing r with
  | zero =>
    have : n - r.length = 0 := by omega
    simp [padLoopAux, this]
  | succ fuel ih =>
    rw [padLoopAux]
    split
    · rename_i hlt
      rw [ih (r ++ [[]]) (by simp; omega)]
      simp only [List.append_assoc, List.length_append, List.length_singleton]
      congr 1
      have : n - r.length = (n - (r.length + 1)) + 1 := by omega
      rw [this, List.replicate_succ]
      rfl
    · rename_i hge
      have : n - r.length = 0 := by omega
      simp [this]

/-- The padding loop, in closed form. -/
theorem processRow_eq (n : Nat) (row : List Cell) :
    processRow n row = row.take n ++ List.replicate (n - (row.take n).length) [] := by
  unfold processRow
  exact padLoopAux_eq_append n n (row.take n) (by simp)

theorem processRow_length (n : Nat) (row : List Cell) :
    (processRow n row).length = n := by
  rw [processRow_eq]
  simp only [List.length_append, List.length_replicate, List.length_take]
  omega

/-- A short row is padded with empty strings. -/
theorem processRow_of_short {n : Nat} {row : List Cell} (h : row.length ≤ n) :
    processRow n row = row ++ List.replicate (n - row.length) [] := by
  rw [processRow_eq, List.take_of_length_le h]

/-- A long row is truncated. -/
theorem processRow_of_long {n : Nat} {row : List Cell} (h : n ≤ row.length) :
    processRow n row = row.take n := by
  rw [processRow_eq]
  have : (row.take n).length = n := by simp; omega
  rw [this]
  simp

/-! ### Lemmas about the disambiguation loop -/

theorem specDisambigFrom_length (pre hs : List Cell) :
    (specDisambigFrom pre hs).length = hs.length := by
  induction hs generalizing pre with
  | nil => rfl
  | cons h t ih => simp [specDisambigFrom, ih]

theorem find?_eq_self_mem (ks : List Cell) (h : Cell) :
    (ks.find? fun k => k = h) = if h ∈ ks then some h else none := by
  induction ks with
  | nil => simp
  | cons a t ih =>
    by_cases ha : a = h
    · subst ha
      simp [List.find?_cons]
    · rw [List.find?_cons]
      have : (decide (a = h)) = false := by simp [ha]
      rw [this, ih]
      simp [List.mem_cons, Ne.symm ha, ha]

/-- The canonical `seen` dictionary after processing `pre`. -/
def canonSeen (pre : List Cell) : List (Cell × Nat) :=
  (dedupFirst pre).map fun k => (k, pre.count k - 1)

theorem dedupFirst_append_singleton (pre : List Cell) (h : Cell) :
    dedupFirst (pre ++ [h]) =
      if h ∈ dedupFirst pre then dedupFirst pre else dedupFirst pre ++ [h] := by
  unfold dedupFirst
  rw [List.foldl_append]
  rfl

theorem mem_dedupFirst_aux (ks : List Cell) (h : Cell) :
    ∀ acc, (h ∈ ks.foldl (fun acc k => if k ∈ acc then acc else acc ++ [k]) acc) ↔
      (h ∈ acc ∨ h ∈ ks) := by
  induction ks with
  | nil => simp
  | cons a t ih =>
    intro acc
    simp only [List.foldl_cons]
    by_cases ha : a ∈ acc
    · rw [if_pos ha, ih]
      constructor
      · rintro (hc | hc)
        · exact Or.inl hc
        · exact Or.inr (List.mem_cons_of_mem _ hc)
      · rintro (hc | hc)
        · exact Or.inl hc
        · rcases List.mem_cons.1 hc with rfl | hc
          · exact Or.inl ha
          · exact Or.inr hc
    · rw [if_neg ha, ih]
      simp only [List.mem_append, List.mem_singleton, List.mem_cons]
      tauto

theorem mem_dedupFirst (ks : List Cell) (h : Cell) : h ∈ dedupFirst ks ↔ h ∈ ks := by
  unfold dedupFirst
  rw [mem_dedupFirst_aux]
  simp

/-- Unfolding `uniquifyStep` when the header has been seen. -/
theorem uniquifyStep_found {seen : List (Cell × Nat)} {out : List Cell} {h : Cell} {n : Nat}
    (hf : (seen.find? fun q => q.1 = h) = some (h, n)) :
    uniquifyStep (seen, out) h =
      (seen.map fun q => if q.1 = h then (q.1, n + 1) else q,
       out ++ [h ++ '_' :: natRepr (n + 1)]) := by
  unfold uniquifyStep
  rw [hf]

/-- Unfolding `uniquifyStep` when the header is new. -/
theorem uniquifyStep_notfound {seen : List (Cell × Nat)} {out : List Cell} {h : Cell}
    (hf : (seen.find? fun q => q.1 = h) = none) :
    uniquifyStep (seen, out) h = (seen ++ [(h, 0)], out ++ [h]) := by
  unfold uniquifyStep
  rw [hf]

/-- The invariant step of the disambiguation loop: starting from the
canonical `seen` state for `pre`, the loop produces exactly the
specification's disambiguation. -/
theorem uniquify_loop_eq (hs : List Cell) :
    ∀ (pre : List Cell) (out : List Cell),
      hs.foldl uniquifyStep (canonSeen pre, out) =
        (canonSeen (pre ++ hs), out ++ specDisambigFrom pre hs) := by
  induction hs with
  | nil => intro pre out; simp [specDisambigFrom]
  | cons h t ih =>
    intro pre out
    rw [List.foldl_cons]
    have hfind : ((canonSeen pre).find? fun p => p.1 = h) =
        if h ∈ pre then some (h, pre.count h - 1) else none := by
      unfold canonSeen
      rw [List.find?_map]
      have hcomp : ((fun p : Cell × Nat => decide (p.1 = h)) ∘ fun k => (k, pre.count k - 1)) =
          fun k => decide (k = h) := by
        funext k
        simp
      rw [hcomp, find?_eq_self_mem]
      simp only [mem_dedupFirst]
      split <;> simp
    by_cases hmem : h ∈ pre
    · have hcount : pre.count h ≠ 0 := by
        simp only [ne_eq, List.count_eq_zero]
        simpa using hmem
      have hf : ((canonSeen pre).find? fun p => p.1 = h) = some (h, pre.count h - 1) := by
        rw [hfind, if_pos hmem]
      rw [uniquifyStep_found hf]
      have hseen : ((canonSeen pre).map fun q =>
          if q.1 = h then (q.1, pre.count h - 1 + 1) else q) = canonSeen (pre ++ [h]) := by
        unfold canonSeen
        rw [dedupFirst_append_singleton, if_pos ((mem_dedupFirst pre h).2 hmem), List.map_map]
        apply List.map_congr_left
        intro k hk
        simp only [Function.comp_apply]
        by_cases hkh : k = h
        · subst hkh
          rw [if_pos rfl, Prod.mk.injEq]
          refine ⟨rfl, ?_⟩
          have h1 : (pre ++ [k]).count k = pre.count k + 1 := by
            rw [List.count_append]
            simp
          omega
        · rw [if_neg hkh, Prod.mk.injEq]
          refine ⟨rfl, ?_⟩
          have h0 : List.count k [h] = 0 := by
            rw [List.count_eq_zero]
            simp [hkh]
          rw [List.count_append, h0]
          omega
      have hsuf : h ++ '_' :: natRepr (pre.count h - 1 + 1) = suffixed h (pre.count h) := by
        have heq : pre.count h - 1 + 1 = pre.count h := by omega
        rw [heq]
        unfold suffixed
        rw [if_neg hcount]
      rw [hseen, hsuf, ih (pre ++ [h]) (out ++ [suffixed h (pre.count h)])]
      simp [specDisambigFrom, List.append_assoc]
    · have hcount : pre.count h = 0 := by
        rw [List.count_eq_zero]
        exact hmem
      have hf : ((canonSeen pre).find? fun p => p.1 = h) = none := by
        rw [hfind, if_neg hmem]
      rw [uniquifyStep_notfound hf]
      have hseen : canonSeen pre ++ [(h, 0)] = canonSeen (pre ++ [h]) := by
        unfold canonSeen
        rw [dedupFirst_append_singleton,
          if_neg (fun hc => hmem ((mem_dedupFirst pre h).1 hc)), List.map_append]
        congr 1
        · apply List.map_congr_left
          intro k hk
          have hkh : k ≠ h := fun hkh => hmem (hkh ▸ (mem_dedupFirst pre k).1 hk)
          rw [Prod.mk.injEq]
          refine ⟨rfl, ?_⟩
          have h0 : List.count k [h] = 0 := by
            rw [List.count_eq_zero]
            simp [hkh]
          rw [List.count_append, h0]
          omega
        · simp [List.count_append, hcount]
      rw [hseen, ih (pre ++ [h]) (out ++ [h])]
      simp [specDisambigFrom, suffixed, hcount, List.append_assoc]

/-- The imperative disambiguation loop computes exactly the
specification's disambiguation. -/
theorem uniquify_eq_specDisambig (hs : List Cell) : uniquify hs = specDisambig hs := by
  have h0 : canonSeen [] = ([] : List (Cell × Nat)) := rfl
  unfold uniquify specDisambig
  rw [← h0, uniquify_loop_eq hs [] []]
  simp

theorem uniquify_length (hs : List Cell) : (uniquify hs).length = hs.length := by
  rw [uniquify_eq_specDisambig]
  exact specDisambigFrom_length [] hs

/-- Every disambiguated name is some cleaned header, possibly suffixed. -/
theorem mem_specDisambigFrom {x : Cell} :
    ∀ {pre hs : List Cell}, x ∈ specDisambigFrom pre hs → ∃ h ∈ hs, ∃ k, x = suffixed h k := by
  intro pre hs
  induction hs generalizing pre with
  | nil => intro hx; simp [specDisambigFrom] at hx
  | cons h t ih =>
    intro hx
    rcases List.mem_cons.1 hx with hx | hx
    · exact ⟨h, by simp, pre.count h, hx⟩
    · obtain ⟨h2, hh2, k, hk⟩ := ih hx
      exact ⟨h2, by simp [hh2], k, hk⟩

/-! ### The cleaning loop agrees with the specification's wording -/

theorem pyToLower_underscore_iff (c : Char) : pyToLower c = '_' ↔ c = '_' := by
  constructor
  · intro hc
    by_cases h : 65 ≤ c.toNat ∧ c.toNat ≤ 90
    · have ht := pyToLower_toNat_of_upper h
      rw [hc] at ht
      have h95 : ('_' : Char).toNat = 95 := rfl
      omega
    · rwa [pyToLower_eq_self_of_not_upper h] at hc
  · intro hc
    subst hc
    decide

theorem keepIdent_pyToLower (c : Char) : keepIdent (pyToLower c) = keepIdent c := by
  unfold keepIdent
  rw [pyIsAlnum_pyToLower]
  congr 1
  simp only [decide_eq_decide]
  exact pyToLower_underscore_iff c

theorem replUnderscore_pyToLower (c : Char) :
    replUnderscore (pyToLower c) = pyToLower (replUnderscore c) := by
  unfold replUnderscore
  exact pyToLower_replace_comm c

theorem emptyOrDigitLeading_map_pyToLower (s : Cell) :
    emptyOrDigitLeading (s.map pyToLower) = emptyOrDigitLeading s := by
  cases s with
  | nil => rfl
  | cons a t => simp [emptyOrDigitLeading, pyIsDigit_pyToLower]

theorem columnName_lower_fixed (i : Nat) : (columnName i).map pyToLower = columnName i := by
  unfold columnName
  rw [List.map_append, map_pyToLower_of_digits (natRepr_digits i)]
  have h1 : "column_".data.map pyToLower = "column_".data := by decide
  rw [h1]

/-- On inputs without surrounding whitespace — which is all the HTML
parser ever hands over, since it strips every cell — the code's cleaning
(lowercasing last) agrees with the specification's (lowercasing first). -/
theorem cleanHeader_eq_specCleanHeader (i : Nat) (h : Cell) (ht : pyStrip h = h) :
    cleanHeader i h = specCleanHeader i h := by
  unfold cleanHeader specCleanHeader
  rw [ht]
  have hmaps : (h.map pyToLower).map replUnderscore = (h.map replUnderscore).map pyToLower := by
    rw [List.map_map, List.map_map]
    apply List.map_congr_left
    intro c _
    exact replUnderscore_pyToLower c
  have hfilter : ((h.map replUnderscore).map pyToLower).filter keepIdent
      = ((h.map replUnderscore).filter keepIdent).map pyToLower := by
    have hk : (keepIdent ∘ pyToLower) = keepIdent := by
      funext c
      exact keepIdent_pyToLower c
    rw [List.filter_map, hk]
  rw [hmaps, hfilter, emptyOrDigitLeading_map_pyToLower]
  by_cases hc : emptyOrDigitLeading ((h.map replUnderscore).filter keepIdent) = true
  · rw [if_pos hc, if_pos hc, columnName_lower_fixed]
  · rw [if_neg hc, if_neg hc]

/-! ### Cleaned and disambiguated names are lowercase and identifier-safe -/

/-- Identifier-safe: nonempty, only alphanumerics/underscores, and not
digit-leading. -/
def identSafe (s : Cell) : Bool :=
  !s.isEmpty && s.all keepIdent && !pyIsDigit (s.headD ' ')

/-- Lowercase: no ASCII uppercase letter occurs. -/
def allLower (s : Cell) : Bool := s.all fun c => !pyIsUpper c

theorem keepIdent_of_digit {c : Char} (h : pyIsDigit c = true) : keepIdent c = true := by
  simp [keepIdent, pyIsAlnum, h]

theorem identSafe_columnName (i : Nat) : identSafe (columnName i) = true := by
  unfold identSafe columnName
  simp only [Bool.and_eq_true, Bool.not_eq_true']
  refine ⟨⟨rfl, ?_⟩, rfl⟩
  rw [List.all_append, Bool.and_eq_true]
  refine ⟨by decide, ?_⟩
  rw [List.all_eq_true]
  intro c hc
  exact keepIdent_of_digit (natRepr_digits i c hc)

theorem allLower_columnName (i : Nat) : allLower (columnName i) = true := by
  unfold allLower columnName
  rw [List.all_append, Bool.and_eq_true]
  refine ⟨by decide, ?_⟩
  rw [List.all_eq_true]
  intro c hc
  have hd := natRepr_digits i c hc
  simp only [pyIsDigit, decide_eq_true_eq] at hd
  simp only [pyIsUpper, Bool.not_eq_true', decide_eq_false_iff_not]
  omega

theorem cleanHeader_identSafe (i : Nat) (h : Cell) :
    identSafe (cleanHeader i h) = true ∧ allLower (cleanHeader i h) = true := by
  unfold cleanHeader
  by_cases hc : emptyOrDigitLeading (((pyStrip h).map replUnderscore).filter keepIdent) = true
  · rw [if_pos hc, columnName_lower_fixed]
    exact ⟨identSafe_columnName i, allLower_columnName i⟩
  · rw [if_neg hc]
    unfold emptyOrDigitLeading at hc
    simp only [Bool.or_eq_true, not_or, Bool.not_eq_true] at hc
    obtain ⟨hne, hhd⟩ := hc
    constructor
    · unfold identSafe
      simp only [Bool.and_eq_true, Bool.not_eq_true']
      refine ⟨⟨?_, ?_⟩, ?_⟩
      · cases hcase : ((pyStrip h).map replUnderscore).filter keepIdent with
        | nil => rw [hcase] at hne; simp at hne
        | cons a t => rfl
      · rw [List.all_eq_true]
        intro c hcmem
        rcases List.mem_map.1 hcmem with ⟨c0, hc0, rfl⟩
        rw [keepIdent_pyToLower]
        exact List.of_mem_filter hc0
      · cases hcase : ((pyStrip h).map replUnderscore).filter keepIdent with
        | nil => rw [hcase] at hne; simp at hne
        | cons a t =>
          rw [hcase] at hhd
          simpa [pyIsDigit_pyToLower] using hhd
    · unfold allLower
      rw [List.all_eq_true]
      intro c hcmem
      rcases List.mem_map.1 hcmem with ⟨c0, _, rfl⟩
      simp [not_pyIsUpper_pyToLower]

theorem identSafe_suffixed {s : Cell} (k : Nat) (h1 : identSafe s = true) :
    identSafe (suffixed s k) = true := by
  unfold suffixed
  split
  · exact h1
  · unfold identSafe at h1 ⊢
    simp only [Bool.and_eq_true, Bool.not_eq_true'] at h1 ⊢
    obtain ⟨⟨hne, hall⟩, hhd⟩ := h1
    cases s with
    | nil => simp at hne
    | cons a t =>
      simp only [List.cons_append, List.isEmpty_cons, List.headD_cons] at hhd ⊢
      refine ⟨⟨trivial, ?_⟩, hhd⟩
      simp only [List.all_cons, List.all_append, Bool.and_eq_true] at hall ⊢
      refine ⟨hall.1, hall.2, by decide, ?_⟩
      rw [List.all_eq_true]
      intro c hc
      exact keepIdent_of_digit (natRepr_digits k c hc)

theorem allLower_suffixed {s : Cell} (k : Nat) (h1 : allLower s = true) :
    allLower (suffixed s k) = true := by
  unfold suffixed
  split
  · exact h1
  · unfold allLower at h1 ⊢
    rw [List.all_append, Bool.and_eq_true]
    refine ⟨h1, ?_⟩
    rw [List.all_cons, Bool.and_eq_true]
    refine ⟨by decide, ?_⟩
    rw [List.all_eq_true]
    intro c hc
    have hd := natRepr_digits k c hc
    simp only [pyIsDigit, decide_eq_true_eq] at hd
    simp only [pyIsUpper, Bool.not_eq_true', decide_eq_false_iff_not]
    omega

/-- Every column name `uniquify ∘ cleanHeaders` produces is lowercase
and identifier-safe. -/
theorem uniquify_cleanHeaders_safe (headers : List Cell) :
    ∀ x ∈ uniquify (cleanHeaders headers), identSafe x = true ∧ allLower x = true := by
  intro x hx
  rw [uniquify_eq_specDisambig] at hx
  obtain ⟨h, hmem, k, rfl⟩ := mem_specDisambigFrom hx
  unfold cleanHeaders at hmem
  rcases List.mem_map.1 hmem with ⟨⟨i, h0⟩, _, rfl⟩
  have hs := cleanHeader_identSafe i h0
  exact ⟨identSafe_suffixed k hs.1, allLower_suffixed k hs.2⟩

/-! ### Building the DataFrame dict when the disambiguated names are distinct -/

theorem dedupFirst_of_nodup_aux :
    ∀ (ks acc : List Cell), (acc ++ ks).Nodup →
      ks.foldl (fun acc k => if k ∈ acc then acc else acc ++ [k]) acc = acc ++ ks := by
  intro ks
  induction ks with
  | nil => intro acc _; simp
  | cons k kt ih =>
    intro acc hnd
    rw [List.foldl_cons]
    have hk : k ∉ acc := by
      intro hmem
      exact (List.nodup_append.1 hnd).2.2 hmem (by simp)
    rw [if_neg hk]
    have hnd2 : ((acc ++ [k]) ++ kt).Nodup := by
      rw [List.append_assoc, List.singleton_append]
      exact hnd
    rw [ih (acc ++ [k]) hnd2, List.append_assoc, List.singleton_append]

theorem dedupFirst_of_nodup {ks : List Cell} (h : ks.Nodup) : dedupFirst ks = ks := by
  unfold dedupFirst
  have := dedupFirst_of_nodup_aux ks [] (by simpa using h)
  simpa using this

theorem appendAt_cons_eq (k : Cell) (c : List Cell) (d : Frame) (v : Cell) :
    appendAt ((k, c) :: d) k v = (k, c ++ [v]) :: appendAt d k v := by
  unfold appendAt
  simp

theorem appendAt_not_mem {d : Frame} {k : Cell} (v : Cell) (h : k ∉ frameCols d) :
    appendAt d k v = d := by
  unfold appendAt
  have hfix : ∀ p ∈ d, (if p.1 = k then (p.1, p.2 ++ [v]) else p) = id p := by
    intro p hp
    have hne : p.1 ≠ k := by
      intro he
      exact h (he ▸ List.mem_map_of_mem Prod.fst hp)
    simp [hne]
  rw [List.map_congr_left hfix, List.map_id]

theorem foldl_appendAt_cons {pairs : List (Cell × Cell)} {k0 : Cell} {c0 : List Cell}
    (d : Frame) (h : ∀ p ∈ pairs, p.1 ≠ k0) :
    pairs.foldl (fun d p => appendAt d p.1 p.2) ((k0, c0) :: d) =
      (k0, c0) :: pairs.foldl (fun d p => appendAt d p.1 p.2) d := by
  induction pairs generalizing d with
  | nil => rfl
  | cons p pt ih =>
    rw [List.foldl_cons, List.foldl_cons]
    have hstep : appendAt ((k0, c0) :: d) p.1 p.2 = (k0, c0) :: appendAt d p.1 p.2 := by
      unfold appendAt
      rw [List.map_cons]
      have : ¬((k0, c0).1 = p.1) := fun he => h p (by simp) (by simp [he.symm])
      rw [if_neg this]
    rw [hstep, ih _ fun q hq => h q (by simp [hq])]

theorem fill_zip :
    ∀ (ks : List Cell) (cols : List (List Cell)) (vals : List Cell), ks.Nodup →
      cols.length = ks.length → vals.length = ks.length →
      (ks.zip vals).foldl (fun d p => appendAt d p.1 p.2) (ks.zip cols) =
        ks.zip (List.zipWith (fun c v => c ++ [v]) cols vals) := by
  intro ks
  induction ks with
  | nil => intro cols vals _ _ _; simp
  | cons k kt ih =>
    intro cols vals hnd hc hv
    cases cols with
    | nil => simp at hc
    | cons c ct =>
      cases vals with
      | nil => simp at hv
      | cons v vt =>
        simp only [List.zip_cons_cons, List.zipWith_cons_cons, List.foldl_cons]
        have hknotkt : k ∉ kt := (List.nodup_cons.1 hnd).1
        have h1 : appendAt ((k, c) :: kt.zip ct) k v = (k, c ++ [v]) :: kt.zip ct := by
          rw [appendAt_cons_eq, appendAt_not_mem]
          rw [frameCols, List.map_fst_zip]
          · exact hknotkt
          · simp at hc
            omega
        rw [h1, foldl_appendAt_cons]
        · rw [ih ct vt (List.nodup_cons.1 hnd).2 (by simpa using hc) (by simpa using hv)]
        · intro p hp
          intro he
          exact hknotkt (he ▸ (List.of_mem_zip hp).1)

theorem zip_map_pair (ks : List Cell) :
    (ks.map fun k => (k, ([] : List Cell))) = ks.zip (List.replicate ks.length []) := by
  induction ks with
  | nil => rfl
  | cons k kt ih => simp [List.replicate_succ, ih]

theorem zipWith_append_lengths (cols : List (List Cell)) (vals : List Cell) (m : Nat)
    (hall : ∀ c ∈ cols, c.length = m) (hlen : vals.length = cols.length) :
    ∀ c ∈ List.zipWith (fun c v => c ++ [v]) cols vals, c.length = m + 1 := by
  induction cols generalizing vals with
  | nil => intro c hc; simp at hc
  | cons c0 ct ih =>
    intro c hc
    cases vals with
    | nil => simp at hlen
    | cons v vt =>
      simp only [List.zipWith_cons_cons, List.mem_cons] at hc
      rcases hc with rfl | hc
      · simp [hall c0 (by simp)]
      · exact ih vt (fun x hx => hall x (by simp [hx])) (by simpa using hlen) c hc

theorem buildDict_rows (rows : List (List Cell)) :
    ∀ (ks : List Cell) (cols : List (List Cell)) (m : Nat),
      ks.Nodup → cols.length = ks.length → (∀ c ∈ cols, c.length = m) →
      ∃ cols2, rows.foldl (fun d r => fillRow d ks r) (ks.zip cols) = ks.zip cols2 ∧
        cols2.length = ks.length ∧ ∀ c ∈ cols2, c.length = m + rows.length := by
  induction rows with
  | nil =>
    intro ks cols m hnd hlen hall
    exact ⟨cols, rfl, hlen, by simpa using hall⟩
  | cons r rt ih =>
    intro ks cols m hnd hlen hall
    rw [List.foldl_cons]
    have hfill : fillRow (ks.zip cols) ks r =
        ks.zip (List.zipWith (fun c v => c ++ [v]) cols (processRow ks.length r)) := by
      unfold fillRow
      exact fill_zip ks cols (processRow ks.length r) hnd hlen (processRow_length _ _)
    rw [hfill]
    have hlen2 : (List.zipWith (fun c v => c ++ [v]) cols (processRow ks.length r)).length
        = ks.length := by
      rw [List.length_zipWith, processRow_length, hlen]
      omega
    have hall2 := zipWith_append_lengths cols (processRow ks.length r) m hall
      (by rw [processRow_length, hlen])
    obtain ⟨cols2, heq, hl2, ha2⟩ := ih ks
      (List.zipWith (fun c v => c ++ [v]) cols (processRow ks.length r)) (m + 1) hnd hlen2 hall2
    refine ⟨cols2, heq, hl2, fun c hc => ?_⟩
    have := ha2 c hc
    simp only [List.length_cons] at *
    omega

/-- When the disambiguated header names are pairwise distinct, the dict
builds into a rectangular frame keyed by exactly those names. -/
theorem buildDict_of_nodup {ks : List Cell} (rows : List (List Cell)) (hnd : ks.Nodup) :
    ∃ cols, buildDict ks rows = ks.zip cols ∧ cols.length = ks.length ∧
      ∀ c ∈ cols, c.length = rows.length := by
  unfold buildDict dictInit
  rw [dedupFirst_of_nodup hnd, zip_map_pair]
  obtain ⟨cols2, h1, h2, h3⟩ := buildDict_rows rows ks (List.replicate ks.length []) 0 hnd
    (by simp) (by intro c hc; rw [List.eq_of_mem_replicate hc]; rfl)
  exact ⟨cols2, h1, h2, by simpa using h3⟩

theorem validFrame_zip {ks : List Cell} {cols : List (List Cell)} {m : Nat}
    (hall : ∀ c ∈ cols, c.length = m) : validFrame (ks.zip cols) = true := by
  cases hz : ks.zip cols with
  | nil => rfl
  | cons p t =>
    unfold validFrame
    rw [List.all_eq_true]
    intro q hq
    have hpm : p.2 ∈ cols := by
      have : p ∈ ks.zip cols := hz ▸ List.mem_cons_self p t
      obtain ⟨a, b⟩ := p
      exact (List.of_mem_zip this).2
    have hqm : q.2 ∈ cols := by
      have : q ∈ ks.zip cols := hz ▸ List.mem_cons_of_mem p hq
      obtain ⟨a, b⟩ := q
      exact (List.of_mem_zip this).2
    simp [hall _ hpm, hall _ hqm]

/-- When the disambiguated header names are pairwise distinct, loading
succeeds and the frame's columns are exactly those names. -/
theorem loadTable_of_nodup {t : List (List Cell)} (rest : List (List (List Cell)))
    (hlen : 2 ≤ t.length)
    (hnd : (uniquify (cleanHeaders (t.headD []))).Nodup) :
    ∃ d, loadTable (t :: rest) = .ok (some d) ∧
      frameCols d = uniquify (cleanHeaders (t.headD [])) ∧
      validFrame d = true ∧
      (frameCols d).length = (t.headD []).length := by
  obtain ⟨cols, hbd, hclen, hall⟩ := buildDict_of_nodup (t.drop 1) hnd
  have hv : validFrame ((uniquify (cleanHeaders (t.headD []))).zip cols) = true :=
    validFrame_zip hall
  have hcols : frameCols ((uniquify (cleanHeaders (t.headD []))).zip cols)
      = uniquify (cleanHeaders (t.headD [])) := by
    unfold frameCols
    exact List.map_fst_zip _ _ (by omega)
  refine ⟨(uniquify (cleanHeaders (t.headD []))).zip cols, ?_, hcols, hv, ?_⟩
  · show (if t.length < 2 then Except.ok none
      else (mkDataFrame (buildDict (uniquify (cleanHeaders (t.headD []))) (t.drop 1))).map some)
      = Except.ok (some ((uniquify (cleanHeaders (t.headD []))).zip cols))
    rw [if_neg (by omega : ¬ t.length < 2), hbd]
    unfold mkDataFrame
    rw [if_pos hv]
    rfl
  · rw [hcols, uniquify_length]
    unfold cleanHeaders
    simp

/-! ## Concrete parser inputs used by the claims -/

/-- Events for `<table><tr><th>a</th></tr><tr><td>1</td><td>2</td></tr></table>`:
a header row of width 1 followed by a data row of width 2. -/
def exEvsC1 : List HEv :=
  [.startTag "table".data, .startTag "tr".data, .startTag "th".data, .textData "a".data,
   .endTag "th".data, .endTag "tr".data, .startTag "tr".data, .startTag "td".data,
   .textData "1".data, .endTag "td".data, .startTag "td".data, .textData "2".data,
   .endTag "td".data, .endTag "tr".data, .endTag "table".data]

example : parseTables exEvsC1 = [[[['a']], [['1'], ['2']]]] := by decide

/-- Events for `<table><tr><th>A</th><th>A</th></tr><tr><td>1</td><td>2</td></tr></table>`. -/
def exEvsC6 : List HEv :=
  [.startTag "table".data, .startTag "tr".data, .startTag "th".data, .textData "A".data,
   .endTag "th".data, .startTag "th".data, .textData "A".data, .endTag "th".data,
   .endTag "tr".data, .startTag "tr".data, .startTag "td".data, .textData "1".data,
   .endTag "td".data, .startTag "td".data, .textData "2".data, .endTag "td".data,
   .endTag "tr".data, .endTag "table".data]

example : loadedCols (parseTables exEvsC6) = [['a'], ['a', '_', '1']] := by decide

/-! ## `CodeExecutor.execute_polars_code` (llm_code_executor.py lines 67-150) -/

/-- Python `code.split('\n')`. -/
def splitNL : Cell → List Cell
  | [] => [[]]
  | c :: rest =>
    match splitNL rest with
    | [] => [[]]
    | l :: ls => if c = '\n' then [] :: l :: ls else (c :: l) :: ls

/-- `'\n'.join(lines)`. -/
def joinNL : List Cell → Cell
  | [] => []
  | [l] => l
  | l :: ls => l ++ '\n' :: joinNL ls

/-- Python `s.startswith(pre)`. -/
def hasPrefixPy : Cell → Cell → Bool
  | _, [] => true
  | [], _ :: _ => false
  | c :: cs, p :: ps => c = p && hasPrefixPy cs ps

/-- `line.strip().startswith('import ') or line.strip().startswith('from ')`. -/
def isImportLine (l : Cell) : Bool :=
  hasPrefixPy (pyStrip l) "import ".data || hasPrefixPy (pyStrip l) "from ".data

/-- `not line.strip()`. -/
def isBlankLine (l : Cell) : Bool := (pyStrip l).isEmpty

/-- The `for line in code_lines` cleaning loop (lines 83-91): skip
the import lines, skip blank lines, keep everything else in order. -/
def preprocessLoop (lines : List Cell) : List Cell :=
  lines.foldl
    (fun acc l => if isImportLine l then acc else if isBlankLine l then acc else acc ++ [l]) []

/-- Lines 82-93: split on newlines, clean, re-join with newlines. -/
def cleanCode (code : Cell) : Cell := joinNL (preprocessLoop (splitNL code))

/-- A Python value, as far as result classification is concerned. -/
inductive PyValue where
  | pyNone
  | int (n : Int)
  | frame (f : Frame)
  | other (str : Cell)
deriving DecidableEq

/-- Python `str(v)`.  A `frame` never reaches `str` in the executor: the
isinstance branch fires first. -/
def pyStr : PyValue → Cell
  | .pyNone => "None".data
  | .int n => intRepr n
  | .frame _ => "<DataFrame>".data
  | .other r => r

/-- `local_vars.get('result', None)`. -/
def lookupVar (vars : List (Cell × PyValue)) (k : Cell) : PyValue :=
  match vars.find? fun p => p.1 = k with
  | some p => p.2
  | none => .pyNone

/-- The `to_dicts()` record of the row at index `i`: one field per
column, named by the column. -/
def frameRow (f : Frame) (i : Nat) : List (Cell × Cell) :=
  f.map fun p => (p.1, p.2.getD i [])

/-- `result_df.head(n).to_dicts()`. -/
def headDicts (f : Frame) (n : Nat) : List (List (Cell × Cell)) :=
  (List.range (min n (frameHeight f))).map (frameRow f)

/-- The structured result dictionary of `execute_polars_code`.  `err`
is the `{'error': ...}` shape; `frameRes` is the
`{'success': True, 'type': 'dataframe', ...}` shape (the specification
calls this result type "table"); `valueRes` is the
`{'success': True, 'type': 'value', 'data': str(v)}` shape (the
specification calls this "scalar"). -/
inductive ExecResult where
  | err (msg : Cell)
  | frameRes (data : List (List (Cell × Cell))) (rows cols : Nat) (columns : List Cell)
  | valueRes (data : Cell)
deriving DecidableEq

/-- Lines 129-146: classify `local_vars.get('result', None)`. -/
def classifyResult (v : PyValue) : ExecResult :=
  match v with
  | .frame f => .frameRes (headDicts f 100) (frameHeight f) f.length (frameCols f)
  | .pyNone => .err "No result variable found in executed code".data
  | v => .valueRes (pyStr v)

/-- An execution oracle: Python `exec` of the cleaned code against the
sandbox globals `{pl, df, restricted builtins}`.  `.error e` is a raised
exception with message `e`; `.ok` carries the final `local_vars`. -/
abbrev ExecOracle := Frame → Cell → Except Cell (List (Cell × PyValue))

/-- `execute_polars_code` (lines 67-150).  The whole `try` body is
modelled inside `Except`; the `except` clause turns a raised exception
into the structured `Execution error:` value. -/
def executePolarsCode (df : Option Frame) (ex : ExecOracle) (code : Cell) : ExecResult :=
  match df with
  | none => .err "No DataFrame available".data
  | some f =>
    match ex f (cleanCode code) with
    | .error e => .err ("Execution error: ".data ++ e)
    | .ok vars => classifyResult (lookupVar vars "result".data)

/-! ### A miniature execution oracle for the concrete example programs -/

/-- Split a line at the first `" = "`. -/
def splitAssign : Cell → Option (Cell × Cell)
  | [] => none
  | ' ' :: '=' :: ' ' :: rest => some ([], rest)
  | c :: rest =>
    match splitAssign rest with
    | some (l, r) => some (c :: l, r)
    | none => none

/-- Split an expression on `" + "`. -/
def splitPlus : Cell → List Cell
  | [] => [[]]
  | ' ' :: '+' :: ' ' :: rest => [] :: splitPlus rest
  | c :: rest =>
    match splitPlus rest with
    | [] => [[]]
    | l :: ls => (c :: l) :: ls

def parseNatLit (s : Cell) : Option Nat :=
  if s ≠ [] ∧ s.all pyIsDigit then
    some (s.foldl (fun acc c => acc * 10 + (c.toNat - 48)) 0)
  else none

def parseIntLit : Cell → Option Int
  | '-' :: rest => (parseNatLit rest).map fun n => -(n : Int)
  | s => (parseNatLit s).map fun n => (n : Int)

/-- Evaluate an expression of the miniature language: `None`, an integer
literal, or a sum of integer literals. -/
def evalMini (e : Cell) : Option PyValue :=
  if e = "None".data then some .pyNone
  else
    match (splitPlus e).mapM parseIntLit with
    | some ns => some (.int (ns.foldl (· + ·) 0))
    | none => none

def updateVar (vars : List (Cell × PyValue)) (k : Cell) (v : PyValue) :
    List (Cell × PyValue) :=
  if vars.any fun p => p.1 = k then vars.map fun p => if p.1 = k then (k, v) else p
  else vars ++ [(k, v)]

/-- A miniature model of Python `exec` for straight-line assignments of
integer arithmetic — enough to run the specification's example
programs.  Any line it cannot parse raises. -/
def miniExec : ExecOracle := fun _ code =>
  (splitNL code).foldlM
    (fun vars line =>
      if isBlankLine line then pure vars
      else
        match splitAssign line with
        | some (k, e) =>
          match evalMini e with
          | some v => pure (updateVar vars (pyStrip k) v)
          | none => Except.error "NameError".data
        | none => Except.error "SyntaxError".data)
    []

/-- A one-column string DataFrame used to instantiate examples. -/
def exFrame : Frame := [(['x'], [['1'], ['2']])]

example : executePolarsCode (some exFrame) miniExec "result = 1 + 1".data
    = .valueRes ['2'] := by decide
example : executePolarsCode (some exFrame) miniExec "import polars as pl\nresult = 1 + 1".data
    = .valueRes ['2'] := by decide
example : executePolarsCode (some exFrame) miniExec "result = None".data
    = .err "No result variable found in executed code".data := by decide

/-! ## Numeric statistics (`get_summary_stats`, session_manager.py lines 257-273) -/

/-- Digits to a rational. -/
def digitsVal (s : Cell) : ℚ :=
  ((s.foldl (fun acc c => acc * 10 + (c.toNat - 48)) 0 : Nat) : ℚ)

/-- Unsigned decimal numeral with optional fractional part. -/
def parseUnsignedFloat (s : Cell) : Option ℚ :=
  match s.dropWhile pyIsDigit with
  | [] => if s = [] then none else some (digitsVal s)
  | '.' :: frac =>
    if frac.all pyIsDigit ∧ (s.takeWhile pyIsDigit ≠ [] ∨ frac ≠ []) then
      some (digitsVal (s.takeWhile pyIsDigit) + digitsVal frac / (10 ^ frac.length : ℚ))
    else none
  | _ => none

/-- Model of the Polars string→`Float64` cast of one cell
(`strict=False`): a decimal numeral with optional sign and optional
fractional part parses; anything else becomes null.  Exact rationals
stand in for `Float64`. -/
def parseFloat : Cell → Option ℚ
  | '-' :: rest => (parseUnsignedFloat rest).map fun q => -q
  | '+' :: rest => parseUnsignedFloat rest
  | s => parseUnsignedFloat s

/-- `column.cast(pl.Float64, strict=False)`. -/
def castFloat (cells : List Cell) : List (Option ℚ) := cells.map parseFloat

/-- The non-null values of a cast column (Polars aggregations skip nulls). -/
def validVals (xs : List (Option ℚ)) : List ℚ := xs.filterMap id

/-- `numeric_col.null_count()`. -/
def countNone (xs : List (Option ℚ)) : Nat := (xs.filter Option.isNone).length

/-- `numeric_col.mean()`: `None` on an all-null column. -/
def colMean (xs : List (Option ℚ)) : Option ℚ :=
  match validVals xs with
  | [] => none
  | vs => some ((vs.foldl (· + ·) 0) / (vs.length : ℚ))

/-- `numeric_col.min()`. -/
def colMin (xs : List (Option ℚ)) : Option ℚ :=
  (validVals xs).foldl
    (fun acc v => match acc with | none => some v | some m => some (Min.min m v)) none

/-- `numeric_col.max()`. -/
def colMax (xs : List (Option ℚ)) : Option ℚ :=
  (validVals xs).foldl
    (fun acc v => match acc with | none => some v | some m => some (Max.max m v)) none

/-- The per-column statistics dictionary (lines 264-269). -/
structure NumStats where
  mean : Option ℚ
  min : Option ℚ
  max : Option ℚ
  nullCount : Nat
deriving DecidableEq

def statsOf (xs : List (Option ℚ)) : NumStats :=
  { mean := colMean xs, min := colMin xs, max := colMax xs, nullCount := countNone xs }

/-- The `numeric_stats` loop (lines 258-271): cast each column with
`strict=False`; include it exactly when `null_count < df.height`. -/
def numericStats (d : Frame) : List (Cell × NumStats) :=
  d.filterMap fun p =>
    if countNone (castFloat p.2) < frameHeight d then some (p.1, statsOf (castFloat p.2))
    else none

example : parseFloat "1".data = some 1 := by decide
example : parseFloat "".data = none := by decide
example : parseFloat "abc".data = none := by decide

example : parseFloat "2.5".data = some (5 / 2) := by
  have h : parseFloat "2.5".data
      = some (digitsVal ['2'] + digitsVal ['5'] / (10 ^ (1 : Nat) : ℚ)) := rfl
  have h2 : digitsVal ['2'] = ((2 : Nat) : ℚ) := rfl
  have h5 : digitsVal ['5'] = ((5 : Nat) : ℚ) := rfl
  rw [h, h2, h5]
  norm_num

/-! ## `AnalysisSession.generate_chart` (session_manager.py lines 307-385) -/

/-- The `chart_spec` dictionary: absent keys are `None`. -/
structure ChartSpec where
  type : Option Cell
  x_col : Option Cell
  y_col : Option Cell
  title : Option Cell
  x_label : Option Cell
  y_label : Option Cell
deriving DecidableEq

/-- Python truthiness of an optional string: `None` and `''` are falsy. -/
def truthy : Option Cell → Bool
  | some s => !s.isEmpty
  | none => false

/-- `self.df[col]`: raises `ColumnNotFoundError` when the column is
absent. -/
def getCol (f : Frame) (c : Cell) : Except Cell (List Cell) :=
  match f.find? fun p => p.1 = c with
  | some p => .ok p.2
  | none => .error "ColumnNotFoundError".data

/-- One matplotlib drawing call: which axes method runs, and with what
data.  `nothing` is the fall-through when no branch matches (an
unsupported chart type): the figure is still saved. -/
inductive DrawCmd where
  | bar (x : List Cell) (y : List (Option ℚ))
  | line (x : List Cell) (y : List (Option ℚ))
  | scatter (x y : List (Option ℚ))
  | pie (labels : Option (List Cell)) (values : List (Option ℚ))
  | hist (data : List (Option ℚ))
  | nothing
deriving DecidableEq

/-- The branch dispatch of `generate_chart` (lines 338-368). -/
def buildCmd (f : Frame) (s : ChartSpec) : Except Cell DrawCmd :=
  if s.type.getD "bar".data = "bar".data ∧ truthy s.x_col ∧ truthy s.y_col then do
    let x ← getCol f (s.x_col.getD [])
    let y ← getCol f (s.y_col.getD [])
    pure (.bar x (castFloat y))
  else if s.type.getD "bar".data = "line".data ∧ truthy s.x_col ∧ truthy s.y_col then do
    let x ← getCol f (s.x_col.getD [])
    let y ← getCol f (s.y_col.getD [])
    pure (.line x (castFloat y))
  else if s.type.getD "bar".data = "scatter".data ∧ truthy s.x_col ∧ truthy s.y_col then do
    let x ← getCol f (s.x_col.getD [])
    let y ← getCol f (s.y_col.getD [])
    pure (.scatter (castFloat x) (castFloat y))
  else if s.type.getD "bar".data = "pie".data ∧ truthy s.y_col then do
    let labels ← if truthy s.x_col then (getCol f (s.x_col.getD [])).map some else pure none
    let y ← getCol f (s.y_col.getD [])
    pure (.pie labels (castFloat y))
  else if s.type.getD "bar".data = "hist".data ∧ truthy s.y_col then do
    let y ← getCol f (s.y_col.getD [])
    pure (.hist (castFloat y))
  else pure .nothing

/-- The renderer oracle: the matplotlib axes call plus `savefig`,
returning base64 PNG bytes; `.error` is a raised exception. -/
abbrev RenderOracle := DrawCmd → Cell → Except Cell Cell

/-- `generate_chart` (lines 307-385): `none` when `self.df is None` and
whenever anything inside the `try` block raises; otherwise the data URL
around the base64 image. -/
def generateChart (df : Option Frame) (s : ChartSpec) (render : RenderOracle) : Option Cell :=
  match df with
  | none => none
  | some f =>
    match buildCmd f s >>= fun cmd => render cmd (s.title.getD "Data Visualization".data) with
    | .ok img => some ("data:image/png;base64,".data ++ img)
    | .error _ => none

/-! ## `SessionManager` (session_manager.py lines 406-483) -/

/-- The manager state: the session map (id ↦ `last_accessed`, in
minutes) and the configured timeout (minutes). -/
structure MgrState where
  sessions : List (String × Nat)
  timeout : Nat
deriving DecidableEq

def lookupSession (st : MgrState) (sid : String) : Option Nat :=
  match st.sessions.find? fun p => p.1 = sid with
  | some p => some p.2
  | none => none

/-- `self.sessions[session_id] = session` where the fresh
`AnalysisSession` has `last_accessed = datetime.now()`. -/
def createSession (st : MgrState) (sid : String) (t : Nat) : MgrState :=
  { st with sessions :=
      if st.sessions.any fun p => p.1 = sid then
        st.sessions.map fun p => if p.1 = sid then (sid, t) else p
      else st.sessions ++ [(sid, t)] }

/-- `session.touch()` inside the `get_session` critical section. -/
def touchSession (st : MgrState) (sid : String) (t : Nat) : MgrState :=
  { st with sessions := st.sessions.map fun p => if p.1 = sid then (sid, t) else p }

/-- `get_session` (lines 434-445): look up; if found, refresh
`last_accessed` and hand the session back — there is no expiry check
here.  The returned value is the session's (refreshed) `last_accessed`. -/
def getSession (st : MgrState) (sid : String) (t : Nat) : Option Nat × MgrState :=
  match lookupSession st sid with
  | some _ => (some t, touchSession st sid t)
  | none => (none, st)

/-- `end_session` (lines 447-453): pop if present; no-op otherwise. -/
def endSession (st : MgrState) (sid : String) : MgrState :=
  { st with sessions := st.sessions.filter fun p => p.1 ≠ sid }

/-- `cleanup_expired_sessions` (lines 455-467): collect the ids with
`now - last_accessed > timeout`, then `end_session` each one. -/
def cleanupExpired (st : MgrState) (t : Nat) : MgrState :=
  ((st.sessions.filter fun p => t - p.2 > st.timeout).map Prod.fst).foldl endSession st

/-! ### Session-registry lemmas -/

theorem lookup_endSession_self (st : MgrState) (sid : String) :
    lookupSession (endSession st sid) sid = none := by
  unfold lookupSession endSession
  have hn : ((st.sessions.filter fun p => p.1 ≠ sid).find? fun p => p.1 = sid) = none := by
    rw [List.find?_eq_none]
    intro x hx
    have hq := List.of_mem_filter hx
    simp only [ne_eq, decide_not, Bool.not_eq_true', decide_eq_false_iff_not] at hq
    simp [hq]
  rw [hn]

theorem lookup_endSession_none (st : MgrState) (s1 s2 : String)
    (h : lookupSession st s1 = none) : lookupSession (endSession st s2) s1 = none := by
  unfold lookupSession at h ⊢
  unfold endSession
  cases hf : st.sessions.find? fun p => p.1 = s1 with
  | some p => rw [hf] at h; simp at h
  | none =>
    have hn : ((st.sessions.filter fun p => p.1 ≠ s2).find? fun p => p.1 = s1) = none := by
      rw [List.find?_eq_none] at hf ⊢
      intro x hx
      exact hf x (List.mem_of_mem_filter hx)
    rw [hn]

theorem lookup_cleanup_none (ids : List String) :
    ∀ (st : MgrState) (sid : String),
      (sid ∈ ids ∨ lookupSession st sid = none) →
      lookupSession (ids.foldl endSession st) sid = none := by
  induction ids with
  | nil =>
    intro st sid h
    rcases h with h | h
    · simp at h
    · exact h
  | cons i it ih =>
    intro st sid h
    rw [List.foldl_cons]
    rcases h with h | h
    · rcases List.mem_cons.1 h with rfl | hmem
      · exact ih (endSession st sid) sid (Or.inr (lookup_endSession_self st sid))
      · exact ih _ sid (Or.inl hmem)
    · exact ih _ sid (Or.inr (lookup_endSession_none st sid i h))

/-- A session whose `now - last_accessed` exceeds the timeout is gone
after `cleanup_expired_sessions` runs at time `t`. -/
theorem lookup_cleanupExpired_none (st : MgrState) (sid : String) (t la : Nat)
    (hla : lookupSession st sid = some la) (hexp : t - la > st.timeout) :
    lookupSession (cleanupExpired st t) sid = none := by
  unfold cleanupExpired
  apply lookup_cleanup_none
  left
  unfold lookupSession at hla
  cases hf : st.sessions.find? fun p => p.1 = sid with
  | none => rw [hf] at hla; simp at hla
  | some p =>
    rw [hf] at hla
    simp only [Option.some.injEq] at hla
    have hmem := List.mem_of_find?_eq_some hf
    have hp1 : p.1 = sid := by
      have := List.find?_some hf
      simpa using this
    apply List.mem_map.2
    refine ⟨p, ?_, hp1⟩
    apply List.mem_filter.2
    refine ⟨hmem, ?_⟩
    simp only [gt_iff_lt, decide_eq_true_eq]
    omega

theorem find?_touch (l : List (String × Nat)) (sid : String) (t : Nat) :
    ((l.map fun p => if p.1 = sid then (sid, t) else p).find? fun p => p.1 = sid)
      = if (l.any fun p => p.1 = sid) = true then some (sid, t) else none := by
  induction l with
  | nil => simp
  | cons p tl ih =>
    by_cases hp : p.1 = sid
    · simp [List.find?_cons, hp]
    · have hd : (decide (p.1 = sid)) = false := by simp [hp]
      simp only [List.map_cons, if_neg hp, List.find?_cons, List.any_cons, hd,
        Bool.false_or]
      exact ih

theorem lookup_createSession (st : MgrState) (sid : String) (t : Nat) :
    lookupSession (createSession st sid t) sid = some t := by
  unfold lookupSession createSession
  by_cases hany : (st.sessions.any fun p => p.1 = sid) = true
  · simp only [if_pos hany]
    rw [find?_touch, if_pos hany]
  · simp only [if_neg hany]
    have hnone : (st.sessions.find? fun p => p.1 = sid) = none := by
      rw [List.find?_eq_none]
      intro x hx hpx
      apply hany
      rw [List.any_eq_true]
      exact ⟨x, hx, hpx⟩
    rw [List.find?_append, hnone]
    simp

theorem lookup_touchSession (st : MgrState) (sid : String) (t la : Nat)
    (h : lookupSession st sid = some la) :
    lookupSession (touchSession st sid t) sid = some t := by
  unfold lookupSession at h
  have hany : (st.sessions.any fun p => p.1 = sid) = true := by
    cases hf : st.sessions.find? fun p => p.1 = sid with
    | none => rw [hf] at h; simp at h
    | some p =>
      rw [List.any_eq_true]
      refine ⟨p, List.mem_of_find?_eq_some hf, ?_⟩
      have := List.find?_some hf
      simpa using this
  unfold lookupSession touchSession
  rw [find?_touch, if_pos hany]

/-! ### Chart-rendering lemmas -/

theorem generateChart_some (f : Frame) (s : ChartSpec) (render : RenderOracle) :
    generateChart (some f) s render =
      match buildCmd f s >>= fun cmd =>
          render cmd (s.title.getD "Data Visualization".data) with
      | .ok img => some ("data:image/png;base64,".data ++ img)
      | .error _ => none := rfl

theorem generateChart_buildCmd_error {f : Frame} {s : ChartSpec} {render : RenderOracle}
    {e : Cell} (h : buildCmd f s = .error e) :
    generateChart (some f) s render = none := by
  rw [generateChart_some, h]
  rfl

theorem generateChart_render_error {f : Frame} {s : ChartSpec} {render : RenderOracle}
    (h : ∀ cmd t, ∃ e, render cmd t = .error e) :
    generateChart (some f) s render = none := by
  rw [generateChart_some]
  cases hb : buildCmd f s with
  | error e => rfl
  | ok cmd =>
    obtain ⟨e2, he2⟩ := h cmd (s.title.getD "Data Visualization".data)
    show (match render cmd (s.title.getD "Data Visualization".data) with
      | .ok img => some ("data:image/png;base64,".data ++ img)
      | .error _ => none) = none
    rw [he2]

theorem generateChart_ok {f : Frame} {s : ChartSpec} {render : RenderOracle}
    {img : Cell} {cmd : DrawCmd} (hb : buildCmd f s = .ok cmd)
    (hr : render cmd (s.title.getD "Data Visualization".data) = .ok img) :
    generateChart (some f) s render = some ("data:image/png;base64,".data ++ img) := by
  rw [generateChart_some, hb]
  show (match render cmd (s.title.getD "Data Visualization".data) with
    | .ok img => some ("data:image/png;base64,".data ++ img)
    | .error _ => none) = _
  rw [hr]

/-- A bar spec whose x column is missing raises `ColumnNotFoundError`
inside the `try` block. -/
theorem buildCmd_bar_missing {f : Frame} {s : ChartSpec}
    (hty : s.type.getD "bar".data = "bar".data)
    (hx : truthy s.x_col = true) (hy : truthy s.y_col = true)
    (hmiss : (f.find? fun p => p.1 = s.x_col.getD []) = none) :
    buildCmd f s = .error "ColumnNotFoundError".data := by
  unfold buildCmd
  rw [if_pos ⟨hty, hx, hy⟩]
  unfold getCol
  rw [hmiss]
  rfl

/-! ### Executor and statistics helper lemmas -/

theorem executePolarsCode_some (f : Frame) (ex : ExecOracle) (code : Cell) :
    executePolarsCode (some f) ex code =
      match ex f (cleanCode code) with
      | .error e => .err ("Execution error: ".data ++ e)
      | .ok vars => classifyResult (lookupVar vars "result".data) := rfl

theorem preprocessLoop_eq_filter_aux :
    ∀ (lines acc : List Cell),
      lines.foldl
        (fun acc l =>
          if isImportLine l then acc else if isBlankLine l then acc else acc ++ [l]) acc
        = acc ++ lines.filter fun l => !(isImportLine l || isBlankLine l) := by
  intro lines
  induction lines with
  | nil => intro acc; simp
  | cons l t ih =>
    intro acc
    rw [List.foldl_cons]
    by_cases h1 : isImportLine l = true
    · rw [if_pos h1, ih, List.filter_cons]
      have hc : (!(isImportLine l || isBlankLine l)) = false := by simp [h1]
      rw [hc]
      simp
    · by_cases h2 : isBlankLine l = true
      · rw [if_neg h1, if_pos h2, ih, List.filter_cons]
        have hc : (!(isImportLine l || isBlankLine l)) = false := by simp [h2]
        rw [hc]
        simp
      · rw [if_neg h1, if_neg h2, ih, List.filter_cons]
        have hc : (!(isImportLine l || isBlankLine l)) = true := by simp [h1, h2]
        rw [hc]
        simp

/-- The cleaning loop is exactly a filter: it removes the import lines
and the blank lines and nothing else, preserving order and content. -/
theorem preprocessLoop_eq_filter (lines : List Cell) :
    preprocessLoop lines = lines.filter fun l => !(isImportLine l || isBlankLine l) := by
  unfold preprocessLoop
  have := preprocessLoop_eq_filter_aux lines []
  simpa using this

/-- A column has strictly fewer nulls than cells exactly when some cell
coerced. -/
theorem countNone_lt_iff (xs : List (Option ℚ)) :
    countNone xs < xs.length ↔ ∃ x ∈ xs, x.isSome = true := by
  unfold countNone
  constructor
  · intro h
    by_contra hc
    push_neg at hc
    have hall : ∀ x ∈ xs, Option.isNone x = true := by
      intro x hx
      have := hc x hx
      cases x with
      | none => rfl
      | some v => simp at this
    rw [List.filter_eq_self.2 hall] at h
    omega
  · rintro ⟨x, hx, hsome⟩
    have hle := List.length_filter_le Option.isNone xs
    rcases Nat.lt_or_ge ((xs.filter Option.isNone).length) xs.length with h | h
    · exact h
    · exfalso
      have heq : (xs.filter Option.isNone).length = xs.length := by omega
      have hall := List.filter_length_eq_length.1 heq x hx
      cases x with
      | none => simp at hsome
      | some v => simp at hall

/-- In a frame with pairwise distinct column names, entries with equal
names are equal. -/
theorem nodup_keys_eq {d : Frame} (hnd : (frameCols d).Nodup) {p q : Cell × List Cell}
    (hp : p ∈ d) (hq : q ∈ d) (h1 : p.1 = q.1) : p = q := by
  induction d with
  | nil => simp at hp
  | cons a t ih =>
    have hnd2 : (frameCols t).Nodup := by
      unfold frameCols at hnd ⊢
      rw [List.map_cons] at hnd
      exact (List.nodup_cons.1 hnd).2
    have hindep : a.1 ∉ frameCols t := by
      unfold frameCols at hnd ⊢
      rw [List.map_cons] at hnd
      exact (List.nodup_cons.1 hnd).1
    rcases List.mem_cons.1 hp with rfl | hp2
    · rcases List.mem_cons.1 hq with rfl | hq2
      · rfl
      · exact absurd (h1 ▸ List.mem_map_of_mem Prod.fst hq2) hindep
    · rcases List.mem_cons.1 hq with rfl | hq2
      · exact absurd (h1 ▸ List.mem_map_of_mem Prod.fst hp2) hindep
      · exact ih hnd2 hp2 hq2

theorem validVals_append_none (xs : List (Option ℚ)) :
    validVals (xs ++ [none]) = validVals xs := by
  unfold validVals
  rw [List.filterMap_append]
  simp

theorem colMean_append_none (xs : List (Option ℚ)) :
    colMean (xs ++ [none]) = colMean xs := by
  unfold colMean
  rw [validVals_append_none]

theorem colMin_append_none (xs : List (Option ℚ)) :
    colMin (xs ++ [none]) = colMin xs := by
  unfold colMin
  rw [validVals_append_none]

theorem colMax_append_none (xs : List (Option ℚ)) :
    colMax (xs ++ [none]) = colMax xs := by
  unfold colMax
  rw [validVals_append_none]

theorem countNone_append_none (xs : List (Option ℚ)) :
    countNone (xs ++ [none]) = countNone xs + 1 := by
  unfold countNone
  rw [List.filter_append]
  simp

deriving instance DecidableEq for Except

/-! ## The claims -/

/-- Claim C1, counterexample.  For the markup
`<table><tr><th>a</th></tr><tr><td>1</td><td>2</td></tr></table>` (a
table with 2 rows), loading succeeds and produces exactly one column,
but the widest observed row has 2 cells: the column count equals the
header-row length, not the widest row, refuting the claim as stated. -/
theorem claim_C1_counterexample :
    loadTable (parseTables exEvsC1) = .ok (some [(['a'], [['1']])]) ∧
    (loadedCols (parseTables exEvsC1)).length = 1 ∧
    widestLen ((parseTables exEvsC1).headD []) = 2 ∧
    ¬((loadedCols (parseTables exEvsC1)).length
        = widestLen ((parseTables exEvsC1).headD [])) := by decide

/-- Claim C1 (amended): for every markup whose first table has at least 2
rows and whose disambiguated header names are pairwise distinct, loading
succeeds and produces column names that are pairwise unique, lowercase
and identifier-safe, and whose count equals the length of the table's
first (header) row — not of its widest row. -/
theorem claim_C1 (evs : List HEv) (t : List (List Cell)) (rest : List (List (List Cell)))
    (h1 : parseTables evs = t :: rest) (h2 : 2 ≤ t.length)
    (h3 : (uniquify (cleanHeaders (t.headD []))).Nodup) :
    ∃ d, loadTable (parseTables evs) = .ok (some d) ∧
      frameCols d = uniquify (cleanHeaders (t.headD [])) ∧
      (frameCols d).Nodup ∧
      (∀ x ∈ frameCols d, identSafe x = true ∧ allLower x = true) ∧
      (frameCols d).length = (t.headD []).length := by
  rw [h1]
  obtain ⟨d, hld, hcols, hvalid, hlen⟩ := loadTable_of_nodup rest h2 h3
  refine ⟨d, hld, hcols, hcols ▸ h3, ?_, hlen⟩
  intro x hx
  exact uniquify_cleanHeaders_safe (t.headD []) x (hcols ▸ hx)

/-- Claim C1, witness: the amended claim applied to the concrete 2-row
markup of the counterexample. -/
theorem claim_C1_witness :
    ∃ d, loadTable (parseTables exEvsC1) = .ok (some d) ∧
      frameCols d = uniquify (cleanHeaders (([[['a']], [['1'], ['2']]] :
        List (List Cell)).headD [])) ∧
      (frameCols d).Nodup ∧
      (∀ x ∈ frameCols d, identSafe x = true ∧ allLower x = true) ∧
      (frameCols d).length = (([[['a']], [['1'], ['2']]] : List (List Cell)).headD []).length :=
  claim_C1 exEvsC1 [[['a']], [['1'], ['2']]] [] (by decide) (by decide) (by decide)

/-- The empty session registry with the reference 30-minute timeout. -/
def mgr0 : MgrState := ⟨[], 30⟩

/-- Claim C2, counterexample.  Create a session at minute 0 with a 30-minute
timeout and call `get` at minute 31 — `now - last_accessed` exceeds the
timeout, yet `get_session` returns the session (and revives it): no
expiry check happens on `get`, only the periodic sweep evicts. -/
theorem claim_C2_counterexample :
    31 - 0 > mgr0.timeout ∧
    (getSession (createSession mgr0 "s" 0) "s" 31).1 = some 31 ∧
    (getSession (createSession mgr0 "s" 0) "s" 31).1 ≠ none := by decide

/-- Claim C2 (amended): `get(id)` called after `create()` returns the session
and refreshes its `last_accessed` timestamp; and once
`cleanup_expired_sessions` has run at a time when `now - last_accessed`
exceeds the configured timeout, `get(id)` returns not-found.  (Between
sweeps an expired session is still handed back; see the
counterexample.) -/
theorem claim_C2 (st : MgrState) (sid : String) (t u la : Nat) :
    ((getSession (createSession st sid t) sid u).1 = some u ∧
     lookupSession ((getSession (createSession st sid t) sid u).2) sid = some u) ∧
    (lookupSession st sid = some la → u - la > st.timeout →
      (getSession (cleanupExpired st u) sid u).1 = none) := by
  constructor
  · have hc := lookup_createSession st sid t
    unfold getSession
    rw [hc]
    exact ⟨rfl, lookup_touchSession (createSession st sid t) sid u t hc⟩
  · intro hla hexp
    have hn := lookup_cleanupExpired_none st sid u la hla hexp
    unfold getSession
    rw [hn]

/-- Claim C2, witness: a fresh session is reachable and touched by `get`; an
expired one is unreachable after the sweep has run. -/
theorem claim_C2_witness :
    ((getSession (createSession mgr0 "a" 5) "a" 7).1 = some 7 ∧
     lookupSession ((getSession (createSession mgr0 "a" 5) "a" 7).2) "a" = some 7) ∧
    (getSession (cleanupExpired (createSession mgr0 "a" 5) 40) "a" 40).1 = none := by
  refine ⟨(claim_C2 mgr0 "a" 5 7 0).1, ?_⟩
  exact (claim_C2 (createSession mgr0 "a" 5) "a" 0 40 5).2 (by decide) (by decide)

/-- Claim C3 (confirmed): `execute_polars_code` never lets an exception reach
its caller — a raised exception becomes the structured
`Execution error:` value — and code that leaves the designated `result`
variable unbound (`lookupVar` yields the `None` default) produces the
structured no-result error, not a crash.  (The function is total into
`ExecResult` by construction: every outcome is a structured value.) -/
theorem claim_C3 (f : Frame) (ex : ExecOracle) (code e : Cell)
    (vars : List (Cell × PyValue)) :
    (ex f (cleanCode code) = .error e →
      executePolarsCode (some f) ex code = .err ("Execution error: ".data ++ e)) ∧
    (ex f (cleanCode code) = .ok vars → lookupVar vars "result".data = .pyNone →
      executePolarsCode (some f) ex code
        = .err "No result variable found in executed code".data) := by
  constructor
  · intro h
    rw [executePolarsCode_some, h]
  · intro h hv
    rw [executePolarsCode_some, h]
    show classifyResult (lookupVar vars "result".data) = _
    rw [hv]
    rfl

/-- Claim C3, witness: a program the sandbox cannot parse raises and is
reported as a structured execution error; a program binding only `x`
yields the structured no-result error. -/
theorem claim_C3_witness :
    executePolarsCode (some exFrame) miniExec "@#".data
      = .err ("Execution error: ".data ++ "SyntaxError".data) ∧
    executePolarsCode (some exFrame) miniExec "x = 1".data
      = .err "No result variable found in executed code".data := by
  refine ⟨(claim_C3 exFrame miniExec "@#".data "SyntaxError".data []).1 (by decide), ?_⟩
  exact (claim_C3 exFrame miniExec "x = 1".data [] [(['x'], PyValue.int 1)]).2
    (by decide) (by decide)

/-- A two-column string frame for the chart claims. -/
def chartFrame : Frame := [("x".data, [['a'], ['b']]), ("y".data, [['1'], ['2']])]

/-- A chart spec with the unsupported type `heatmap`. -/
def heatSpec : ChartSpec := ⟨some "heatmap".data, some "x".data, some "y".data, none, none, none⟩

/-- A bar spec referencing a column that does not exist. -/
def barSpecMissing : ChartSpec :=
  ⟨some "bar".data, some "zz".data, some "y".data, none, none, none⟩

/-- A renderer that always succeeds (matplotlib drawing and `savefig`
completing normally). -/
def okRender : RenderOracle := fun _ _ => .ok "IMG".data

/-- A renderer whose axes call raises (for instance `ax.bar` rejecting
null heights from a non-numeric column). -/
def failRender : RenderOracle := fun _ _ => .error "TypeError".data

/-- Claim C4, counterexample.  An unsupported chart type matches no branch,
yet the `try` block still runs to `savefig` and returns a (blank) chart
image — not the null the claim requires for unsupported types. -/
theorem claim_C4_counterexample :
    generateChart (some chartFrame) heatSpec okRender
      = some "data:image/png;base64,IMG".data ∧
    generateChart (some chartFrame) heatSpec okRender ≠ none := by
  constructor
  · rfl
  · intro h
    simp [generateChart, okRender, heatSpec, chartFrame, buildCmd, truthy] at h

/-- Claim C4 (amended): `generate_chart` returns null when no DataFrame is
loaded, when a referenced column is missing (the raised
`ColumnNotFoundError` is caught), and when the drawing backend raises —
including a bar chart whose float-cast column holds nulls from
non-numeric cells — and never propagates an exception (the function is
total into `Option`).  An unsupported chart type, however, is not a
failure: no branch draws, the figure is saved, and a non-null image is
returned. -/
theorem claim_C4 (f : Frame) (s : ChartSpec) (render : RenderOracle) (e img : Cell) :
    generateChart none s render = none ∧
    (buildCmd f s = .error e → generateChart (some f) s render = none) ∧
    ((∀ c t, ∃ e2, render c t = .error e2) → generateChart (some f) s render = none) ∧
    (s.type.getD "bar".data = "bar".data → truthy s.x_col = true → truthy s.y_col = true →
      (f.find? fun p => p.1 = s.x_col.getD []) = none →
      generateChart (some f) s render = none) ∧
    (buildCmd f s = .ok DrawCmd.nothing →
      render DrawCmd.nothing (s.title.getD "Data Visualization".data) = .ok img →
      generateChart (some f) s render = some ("data:image/png;base64,".data ++ img)) := by
  refine ⟨rfl, fun h => generateChart_buildCmd_error h,
    fun h => generateChart_render_error h,
    fun h1 h2 h3 h4 => generateChart_buildCmd_error (buildCmd_bar_missing h1 h2 h3 h4),
    fun hb hr => generateChart_ok hb hr⟩

/-- Claim C4, witness: each failure mode returns null at a concrete input,
and the unsupported-type path returns a concrete image. -/
theorem claim_C4_witness :
    generateChart none heatSpec okRender = none ∧
    generateChart (some chartFrame) barSpecMissing okRender = none ∧
    generateChart (some chartFrame) heatSpec failRender = none ∧
    generateChart (some chartFrame) heatSpec okRender
      = some ("data:image/png;base64,".data ++ "IMG".data) := by
  refine ⟨(claim_C4 chartFrame heatSpec okRender [] "IMG".data).1, ?_, ?_, ?_⟩
  · exact (claim_C4 chartFrame barSpecMissing okRender [] "IMG".data).2.2.2.1
      (by decide) (by decide) (by decide) (by decide)
  · exact (claim_C4 chartFrame heatSpec failRender [] "IMG".data).2.2.1
      (fun c t => ⟨"TypeError".data, rfl⟩)
  · exact (claim_C4 chartFrame heatSpec okRender [] "IMG".data).2.2.2.2 rfl rfl

/-- Claim C5 (confirmed): evaluating `result = 1 + 1` yields the success
result the code tags `'value'` (the specification's "scalar") with data
`"2"`; a DataFrame-shaped result yields the `'dataframe'` (the
specification's "table") shape with at most the first 100 rows as
field-named records, the full row/column counts, and the column names;
any other non-null result yields its string representation. -/
theorem claim_C5 (rf : Frame) (n : Int) (s : Cell) :
    executePolarsCode (some exFrame) miniExec "result = 1 + 1".data = .valueRes ['2'] ∧
    classifyResult (.frame rf)
      = .frameRes (headDicts rf 100) (frameHeight rf) rf.length (frameCols rf) ∧
    (headDicts rf 100).length = Min.min 100 (frameHeight rf) ∧
    (∀ r ∈ headDicts rf 100, r.map Prod.fst = frameCols rf) ∧
    classifyResult (.int n) = .valueRes (intRepr n) ∧
    classifyResult (.other s) = .valueRes s := by
  refine ⟨by decide, rfl, ?_, ?_, rfl, rfl⟩
  · unfold headDicts
    rw [List.length_map, List.length_range]
  · intro r hr
    unfold headDicts at hr
    rcases List.mem_map.1 hr with ⟨i, _, rfl⟩
    unfold frameRow frameCols
    rw [List.map_map]
    rfl

/-- Claim C5, witness: the classification facts at the concrete one-column
frame. -/
theorem claim_C5_witness :
    executePolarsCode (some exFrame) miniExec "result = 1 + 1".data = .valueRes ['2'] ∧
    classifyResult (.frame exFrame)
      = .frameRes (headDicts exFrame 100) (frameHeight exFrame) exFrame.length
          (frameCols exFrame) ∧
    (headDicts exFrame 100).length = Min.min 100 (frameHeight exFrame) ∧
    classifyResult (.int 7) = .valueRes (intRepr 7) :=
  ⟨(claim_C5 exFrame 7 []).1, (claim_C5 exFrame 7 []).2.1,
   (claim_C5 exFrame 7 []).2.2.1, (claim_C5 exFrame 7 []).2.2.2.2.1⟩

/-- Claim C6 (confirmed): header cleaning matches the specification's
algorithm (on the whitespace-trimmed cells the parser produces —
lowercasing last, as the code does, equals lowercasing first, as the
specification words it); duplicate headers receive `_1`, `_2`, …
suffixes counted per name in order of occurrence; short rows are padded
with empty strings and long rows truncated to the header count; and the
markup with headers `A`, `A` yields columns `["a", "a_1"]`. -/
theorem claim_C6 (i : Nat) (h : Cell) (hs : List Cell) (n : Nat) (row : List Cell)
    (htrim : pyStrip h = h) :
    cleanHeader i h = specCleanHeader i h ∧
    uniquify hs = specDisambig hs ∧
    (row.length ≤ n → processRow n row = row ++ List.replicate (n - row.length) []) ∧
    (n ≤ row.length → processRow n row = row.take n) ∧
    loadedCols (parseTables exEvsC6) = [['a'], ['a', '_', '1']] :=
  ⟨cleanHeader_eq_specCleanHeader i h htrim, uniquify_eq_specDisambig hs,
   fun hle => processRow_of_short hle, fun hge => processRow_of_long hge, by decide⟩

/-- Claim C6, witness: the algorithm agreement at a concrete header, the
disambiguation of a duplicated name, both padding directions, and the
`A`, `A` example. -/
theorem claim_C6_witness :
    cleanHeader 0 "My-Header 1".data = specCleanHeader 0 "My-Header 1".data ∧
    uniquify [['a'], ['a']] = specDisambig [['a'], ['a']] ∧
    processRow 3 [['x']] = [['x']] ++ List.replicate (3 - 1) [] ∧
    loadedCols (parseTables exEvsC6) = [['a'], ['a', '_', '1']] := by
  have hc := claim_C6 0 "My-Header 1".data [['a'], ['a']] 3 [['x']] (by decide)
  exact ⟨hc.1, hc.2.1, hc.2.2.1 (by decide), hc.2.2.2.2⟩

/-- The one-column store holding `[1, 2, null, 4]` (the null as the
non-coercible empty cell). -/
def statsFrame : Frame := [(['v'], [['1'], ['2'], [], ['4']])]

/-- Claim C7 (confirmed): per column, every cell is float-coerced with
unparsable cells becoming null; the column is reported numeric exactly
when at least one cell coerces (`null_count < row_count`); the
statistics ignore the nulls (appending a non-coercible cell changes
only `null_count`); and the column `[1, 2, null, 4]` yields mean `7/3`
(= 2.333…), min 1, max 4, null_count 1. -/
theorem claim_C7 (d : Frame) (name junk : Cell) (cells : List Cell)
    (hmem : (name, cells) ∈ d) (hlen : cells.length = frameHeight d)
    (hnd : (frameCols d).Nodup) (hjunk : parseFloat junk = none) :
    ((∃ stats, (name, stats) ∈ numericStats d) ↔
      ∃ c ∈ cells, (parseFloat c).isSome = true) ∧
    (statsOf (castFloat (cells ++ [junk]))).mean = (statsOf (castFloat cells)).mean ∧
    (statsOf (castFloat (cells ++ [junk]))).min = (statsOf (castFloat cells)).min ∧
    (statsOf (castFloat (cells ++ [junk]))).max = (statsOf (castFloat cells)).max ∧
    (statsOf (castFloat (cells ++ [junk]))).nullCount
      = (statsOf (castFloat cells)).nullCount + 1 ∧
    numericStats statsFrame
      = [(['v'], ⟨some (7 / 3), some 1, some 4, 1⟩)] := by
  have hcast : castFloat (cells ++ [junk]) = castFloat cells ++ [none] := by
    unfold castFloat
    rw [List.map_append]
    simp [hjunk]
  have hlencast : (castFloat cells).length = cells.length := List.length_map _ _
  refine ⟨?_, ?_, ?_, ?_, ?_, ?_⟩
  · constructor
    · rintro ⟨stats, hstats⟩
      obtain ⟨p, hpd, hpf⟩ := List.mem_filterMap.1 hstats
      by_cases hcond : countNone (castFloat p.2) < frameHeight d
      · rw [if_pos hcond] at hpf
        rw [Option.some.injEq] at hpf
        have hp1 : p.1 = name := congrArg Prod.fst hpf
        have hpe : p = (name, cells) := nodup_keys_eq hnd hpd hmem hp1
        rw [hpe] at hcond
        have hlt : countNone (castFloat cells) < (castFloat cells).length := by
          rw [hlencast, hlen]
          exact hcond
        obtain ⟨x, hx, hxs⟩ := (countNone_lt_iff _).1 hlt
        obtain ⟨c, hc, rfl⟩ := List.mem_map.1 hx
        exact ⟨c, hc, hxs⟩
      · rw [if_neg hcond] at hpf
        simp at hpf
    · rintro ⟨c, hc, hcs⟩
      refine ⟨statsOf (castFloat cells), ?_⟩
      apply List.mem_filterMap.2
      refine ⟨(name, cells), hmem, ?_⟩
      have hcond : countNone (castFloat cells) < frameHeight d := by
        rw [← hlen, ← hlencast]
        exact (countNone_lt_iff _).2 ⟨parseFloat c, List.mem_map_of_mem parseFloat hc, hcs⟩
      rw [if_pos hcond]
  · unfold statsOf
    rw [hcast]
    exact colMean_append_none _
  · unfold statsOf
    rw [hcast]
    exact colMin_append_none _
  · unfold statsOf
    rw [hcast]
    exact colMax_append_none _
  · unfold statsOf
    rw [hcast]
    exact countNone_append_none _
  · have hx : numericStats statsFrame = [(['v'],
      { mean := some ((0 + ((1 : Nat) : ℚ) + ((2 : Nat) : ℚ) + ((4 : Nat) : ℚ))
          / ((3 : Nat) : ℚ)),
        min := some (Min.min (Min.min ((1 : Nat) : ℚ) ((2 : Nat) : ℚ)) ((4 : Nat) : ℚ)),
        max := some (Max.max (Max.max ((1 : Nat) : ℚ) ((2 : Nat) : ℚ)) ((4 : Nat) : ℚ)),
        nullCount := 1 })] := rfl
    rw [hx]
    simp only [List.cons.injEq, Prod.mk.injEq, NumStats.mk.injEq, Option.some.injEq,
      and_true, true_and]
    refine ⟨?_, ?_, ?_⟩
    · push_cast
      norm_num
    · rw [min_def, min_def]
      push_cast
      norm_num
    · rw [max_def, max_def]
      push_cast
      norm_num

/-- Claim C7, witness: the `[1, 2, null, 4]` column is reported numeric with
the claimed statistics, and appending a junk cell only bumps
`null_count`. -/
theorem claim_C7_witness :
    (∃ stats, (['v'], stats) ∈ numericStats statsFrame) ∧
    numericStats statsFrame = [(['v'], ⟨some (7 / 3), some 1, some 4, 1⟩)] ∧
    (statsOf (castFloat ([['1'], ['2'], [], ['4']] ++ ["zz".data]))).nullCount
      = (statsOf (castFloat [['1'], ['2'], [], ['4']])).nullCount + 1 := by
  have h := claim_C7 statsFrame ['v'] "zz".data [['1'], ['2'], [], ['4']]
    (by decide) (by decide) (by decide) (by decide)
  exact ⟨h.1.2 ⟨['1'], by decide, by decide⟩, h.2.2.2.2.2, h.2.2.2.2.1⟩

/-- Claim C8 (confirmed): evaluator preprocessing is exactly a filter — it
removes the lines whose stripped text starts a module-import statement
(`import ` / `from `) and the blank lines, keeping every other line
unchanged and in order (the kept lines are a sublist of the input) —
and code containing an import line still evaluates successfully once
the import is stripped. -/
theorem claim_C8 (lines : List Cell) :
    preprocessLoop lines = lines.filter (fun l => !(isImportLine l || isBlankLine l)) ∧
    List.Sublist (preprocessLoop lines) lines ∧
    cleanCode "import polars as pl\nresult = 1 + 1".data = "result = 1 + 1".data ∧
    executePolarsCode (some exFrame) miniExec "import polars as pl\nresult = 1 + 1".data
      = .valueRes ['2'] := by
  refine ⟨preprocessLoop_eq_filter lines, ?_, by decide, by decide⟩
  rw [preprocessLoop_eq_filter]
  exact List.filter_sublist lines

/-- Events for `<table><tr><td>x</td></tr></table>`: one table with a
single row. -/
def exEvsShort : List HEv :=
  [.startTag "table".data, .startTag "tr".data, .startTag "td".data, .textData "x".data,
   .endTag "td".data, .endTag "tr".data, .endTag "table".data]

/-- Claim C9 (confirmed): markup with no table, or whose first table has
fewer than 2 rows, loads to the empty table state (`ok none`) without
raising; and a load never leaves a partial table behind — any frame it
does produce is rectangular (`validFrame`). -/
theorem claim_C9 (evs : List HEv) (t : List (List Cell)) (rest : List (List (List Cell)))
    (d : Frame) :
    (parseTables evs = [] → loadTable (parseTables evs) = .ok none) ∧
    (parseTables evs = t :: rest → t.length < 2 → loadTable (parseTables evs) = .ok none) ∧
    (loadTable (parseTables evs) = .ok (some d) → validFrame d = true) := by
  refine ⟨?_, ?_, ?_⟩
  · intro h
    rw [h]
    rfl
  · intro h hlt
    rw [h]
    show (if t.length < 2 then Except.ok none
      else (mkDataFrame (buildDict (uniquify (cleanHeaders (t.headD []))) (t.drop 1))).map some)
      = Except.ok none
    rw [if_pos hlt]
  · intro h
    cases hp : parseTables evs with
    | nil =>
      rw [hp] at h
      have h0 : (Except.ok none : Except Unit (Option Frame)) = Except.ok (some d) := h
      simp at h0
    | cons t2 r2 =>
      rw [hp] at h
      have h2 : (if t2.length < 2 then Except.ok none
          else (mkDataFrame (buildDict (uniquify (cleanHeaders (t2.headD [])))
            (t2.drop 1))).map some) = Except.ok (some d) := h
      by_cases hl2 : t2.length < 2
      · rw [if_pos hl2] at h2
        simp at h2
      · rw [if_neg hl2] at h2
        unfold mkDataFrame at h2
        by_cases hv : validFrame (buildDict (uniquify (cleanHeaders (t2.headD [])))
            (t2.drop 1)) = true
        · rw [if_pos hv] at h2
          have h4 : (Except.ok (some (buildDict (uniquify (cleanHeaders (t2.headD [])))
              (t2.drop 1))) : Except Unit (Option Frame)) = Except.ok (some d) := h2
          simp only [Except.ok.injEq, Option.some.injEq] at h4
          exact h4 ▸ hv
        · rw [if_neg hv] at h2
          have h4 : (Except.error () : Except Unit (Option Frame)) = Except.ok (some d) := h2
          simp at h4

/-- Claim C9, witness: empty markup and a one-row table load to the empty
state; the frame loaded from the counterexample markup is rectangular. -/
theorem claim_C9_witness :
    loadTable (parseTables []) = .ok none ∧
    loadTable (parseTables exEvsShort) = .ok none ∧
    validFrame [(['a'], [['1']])] = true := by
  refine ⟨(claim_C9 [] [] [] []).1 rfl, ?_, ?_⟩
  · exact (claim_C9 exEvsShort [[['x']]] [] []).2.1 (by decide) (by decide)
  · exact (claim_C9 exEvsC1 [] [] [(['a'], [['1']])]).2.2 (by decide)

/-- Claim C10 (confirmed): binding the output variable to `None`
(`result = None`) is indistinguishable from not binding it at all —
`local_vars.get('result', None)` returns `None` either way, so both
produce the structured no-result error and a null output is never
classified as a scalar or table result. -/
theorem claim_C10 (f : Frame) (code : Cell) :
    executePolarsCode (some f) (fun _ _ => .ok [("result".data, PyValue.pyNone)]) code
      = .err "No result variable found in executed code".data ∧
    executePolarsCode (some f) (fun _ _ => .ok []) code
      = .err "No result variable found in executed code".data ∧
    executePolarsCode (some exFrame) miniExec "result = None".data
      = .err "No result variable found in executed code".data := by
  refine ⟨rfl, rfl, by decide⟩

/-- Claim C8, witness: the filter characterization at a concrete line
list containing an import line, a blank line, and a code line. -/
theorem claim_C8_witness :
    preprocessLoop ["import os".data, "".data, "x = 1".data]
      = ["import os".data, "".data, "x = 1".data].filter
          (fun l => !(isImportLine l || isBlankLine l)) ∧
    List.Sublist (preprocessLoop ["import os".data, "".data, "x = 1".data])
      ["import os".data, "".data, "x = 1".data] :=
  ⟨(claim_C8 ["import os".data, "".data, "x = 1".data]).1,
   (claim_C8 ["import os".data, "".data, "x = 1".data]).2.1⟩

/-- Claim C10, witness: the explicit `result = None` binding at a
concrete code string and frame. -/
theorem claim_C10_witness :
    executePolarsCode (some exFrame) (fun _ _ => .ok [("result".data, PyValue.pyNone)]) ['x']
      = .err "No result variable found in executed code".data :=
  (claim_C10 exFrame ['x']).1
